import Mathlib

/-!
Verification of the trekker-tokens repository: a shallow embedding of the
two scripts build_tokens.py and diff_tokens.py, together with theorems
settling the specification claims about them.

Modelling conventions:
* JSON values are modelled by the inductive type Json below; numbers are
  rationals (JSON has a single number type; Python int/float equality is
  value equality, which rational equality captures).
* Python dicts are association lists with distinct keys; dict equality
  (order-insensitive) is modelled by jsonEq, dict key lookup by lookupJ.
* Python string operations used by the scripts (split on a slash,
  startswith, substring membership, lower, replace) are re-implemented
  structurally over character lists so that all definitions evaluate by
  kernel reduction; sorting is an insertion sort, which agrees with
  Python sorted on duplicate-free key lists.
-/

/-! ### Python-style string primitives -/

/-- Code-point comparison of characters, as Python compares strings. -/
def charLtB (a b : Char) : Bool := decide (a < b)

/-- Lexicographic strict order on character lists (Python string <). -/
def strLtL : List Char → List Char → Bool
  | [], [] => false
  | [], _ :: _ => true
  | _ :: _, [] => false
  | a :: as, b :: bs => if a = b then strLtL as bs else charLtB a b

/-- Python string comparison a <= b, as the negation of b < a. -/
def strLeB (a b : String) : Bool := !(strLtL b.data a.data)

/-- Split a character list at every occurrence of the separator character;
like Python str.split with a one-character separator, an empty input
yields one empty field. -/
def splitChAux (c : Char) : List Char → List Char → List (List Char)
  | [], acc => [acc.reverse]
  | x :: xs, acc =>
      if x = c then acc.reverse :: splitChAux c xs [] else splitChAux c xs (x :: acc)

/-- Python s.split(sep) for a one-character separator. -/
def pySplit (c : Char) (s : String) : List String :=
  (splitChAux c s.data []).map List.asString

/-- Python s.startswith(pre). -/
def pyStartsWith (pre s : String) : Bool := pre.data.isPrefixOf s.data

/-- Contiguous-sublist test on character lists. -/
def isInfixL (n : List Char) : List Char → Bool
  | [] => n.isEmpty
  | c :: rest => n.isPrefixOf (c :: rest) || isInfixL n rest

/-- Python substring membership: needle in hay. -/
def pyInStr (needle hay : String) : Bool := isInfixL needle.data hay.data

/-- Python str.lower, restricted to the ASCII range the inputs use. -/
def pyLower (s : String) : String := List.asString (s.data.map Char.toLower)

/-- Python str.replace for one-character pattern and replacement. -/
def pyReplaceChar (s : String) (from_ to_ : Char) : String :=
  List.asString (s.data.map fun c => if c = from_ then to_ else c)

/-! ### Insertion sort (kernel-reducible stand-in for Python sorted) -/

/-- Insert an element into a list, before the first element it is
less-or-equal to. -/
def insertLe {α : Type} (le : α → α → Bool) (x : α) : List α → List α
  | [] => [x]
  | y :: ys => if le x y then x :: y :: ys else y :: insertLe le x ys

/-- Insertion sort by the boolean relation le. On a duplicate-free list
and a total order this computes exactly what Python sorted returns. -/
def sortBy {α : Type} (le : α → α → Bool) : List α → List α
  | [] => []
  | x :: xs => insertLe le x (sortBy le xs)

theorem insertLe_perm {α : Type} (le : α → α → Bool) (x : α) (l : List α) :
    List.Perm (insertLe le x l) (x :: l) := by
  induction l with
  | nil => simp [insertLe]
  | cons y ys ih =>
      by_cases h : le x y
      · simp [insertLe, h]
      · simp only [insertLe, h, if_neg]
        exact List.Perm.trans (List.Perm.cons y ih) (List.Perm.swap x y ys)

theorem sortBy_perm {α : Type} (le : α → α → Bool) (l : List α) :
    List.Perm (sortBy le l) l := by
  induction l with
  | nil => simp [sortBy]
  | cons x xs ih =>
      exact List.Perm.trans (insertLe_perm le x (sortBy le xs)) (List.Perm.cons x ih)

theorem mem_sortBy {α : Type} (le : α → α → Bool) (l : List α) (a : α) :
    a ∈ sortBy le l ↔ a ∈ l :=
  (sortBy_perm le l).mem_iff

theorem sortBy_nodup {α : Type} (le : α → α → Bool) (l : List α) (h : l.Nodup) :
    (sortBy le l).Nodup := ((sortBy_perm le l).nodup_iff).mpr h

theorem insertLe_pairwise {α : Type} (le : α → α → Bool)
    (htot : ∀ a b, le a b = true ∨ le b a = true)
    (htr : ∀ a b c, le a b = true → le b c = true → le a c = true)
    (x : α) (l : List α) (h : l.Pairwise (fun a b => le a b = true)) :
    (insertLe le x l).Pairwise (fun a b => le a b = true) := by
  induction l with
  | nil => simp [insertLe]
  | cons y ys ih =>
      rcases h with _ | ⟨hy, hys⟩
      by_cases hxy : le x y = true
      · simp only [insertLe, hxy, if_pos]
        refine List.Pairwise.cons ?_ (List.Pairwise.cons hy hys)
        intro b hb
        rcases List.mem_cons.mp hb with rfl | hb
        · exact hxy
        · exact htr x y b hxy (hy b hb)
      · simp only [insertLe, hxy, if_neg, Bool.not_eq_true]
        refine List.Pairwise.cons ?_ (ih hys)
        intro b hb
        rcases List.mem_cons.mp ((insertLe_perm le x ys).mem_iff.mp hb) with rfl | hb
        · rcases htot b y with hx | hx
          · exact absurd hx hxy
          · exact hx
        · exact hy b hb

theorem sortBy_pairwise {α : Type} (le : α → α → Bool)
    (htot : ∀ a b, le a b = true ∨ le b a = true)
    (htr : ∀ a b c, le a b = true → le b c = true → le a c = true)
    (l : List α) : (sortBy le l).Pairwise (fun a b => le a b = true) := by
  induction l with
  | nil => simp [sortBy]
  | cons x xs ih => exact insertLe_pairwise le htot htr x (sortBy le xs) ih

theorem insertLe_of_le_head {α : Type} (le : α → α → Bool) (x : α) (l : List α)
    (h : ∀ b ∈ l, le x b = true) : insertLe le x l = x :: l := by
  cases l with
  | nil => rfl
  | cons y ys => simp [insertLe, h y (by simp)]

/-- Sorting a list that is already sorted by a strict order returns it
unchanged, provided le holds along the chain. -/
theorem sortBy_eq_self_of_sorted {α : Type} (le : α → α → Bool)
    (l : List α) (h : l.Pairwise (fun a b => le a b = true)) :
    sortBy le l = l := by
  induction l with
  | nil => rfl
  | cons x xs ih =>
      rcases h with _ | ⟨hx, hxs⟩
      rw [sortBy, ih hxs]
      exact insertLe_of_le_head le x xs hx

/-! ### Total-order facts about strLeB -/

theorem strLtL_irrefl : ∀ l : List Char, strLtL l l = false := by
  intro l
  induction l with
  | nil => rfl
  | cons a as ih => simp [strLtL, ih]

theorem strLtL_asymm : ∀ x y, strLtL x y = true → strLtL y x = false := by
  intro x
  induction x with
  | nil => intro y h; cases y <;> simp_all [strLtL]
  | cons a as ih =>
      intro y h
      cases y with
      | nil => simp [strLtL] at h
      | cons b bs =>
          by_cases hab : a = b
          · subst hab
            simp only [strLtL, if_pos rfl] at h ⊢
            exact ih bs h
          · simp only [strLtL, if_neg hab, charLtB, decide_eq_true_eq] at h
            have hba : ¬ b = a := fun hba => hab hba.symm
            simp only [strLtL, if_neg hba, charLtB, decide_eq_false_iff_not]
            exact lt_asymm h

theorem strLtL_connex : ∀ x y, strLtL x y = false → strLtL y x = false → x = y := by
  intro x
  induction x with
  | nil => intro y h _; cases y <;> simp_all [strLtL]
  | cons a as ih =>
      intro y h h'
      cases y with
      | nil => simp [strLtL] at h'
      | cons b bs =>
          by_cases hab : a = b
          · subst hab
            simp only [strLtL, if_pos rfl] at h h'
            rw [ih bs h h']
          · have hba : ¬ b = a := fun hba => hab hba.symm
            simp only [strLtL, if_neg hab, charLtB, decide_eq_false_iff_not, not_lt] at h
            simp only [strLtL, if_neg hba, charLtB, decide_eq_false_iff_not, not_lt] at h'
            exact absurd (le_antisymm h' h) hab

theorem strLtL_trans : ∀ x y z, strLtL x y = true → strLtL y z = true →
    strLtL x z = true := by
  intro x
  induction x with
  | nil =>
      intro y z h h'
      cases y with
      | nil => simp [strLtL] at h
      | cons b bs => cases z with
        | nil => simp [strLtL] at h'
        | cons c cs => simp [strLtL]
  | cons a as ih =>
      intro y z h h'
      cases y with
      | nil => simp [strLtL] at h
      | cons b bs =>
          cases z with
          | nil => simp [strLtL] at h'
          | cons c cs =>
              by_cases hab : a = b <;> by_cases hbc : b = c
              · subst hab; subst hbc
                simp only [strLtL, if_pos rfl] at h h' ⊢
                exact ih bs cs h h'
              · subst hab
                simp only [strLtL, if_pos rfl, if_neg hbc] at h' ⊢
                exact h'
              · subst hbc
                simp only [strLtL, if_neg hab, if_pos rfl] at h ⊢
                exact h
              · simp only [strLtL, if_neg hab, charLtB, decide_eq_true_eq] at h
                simp only [strLtL, if_neg hbc, charLtB, decide_eq_true_eq] at h'
                have hac : a < c := lt_trans h h'
                simp only [strLtL, if_neg (ne_of_lt hac), charLtB, decide_eq_true_eq]
                exact hac

theorem strLeB_total : ∀ a b : String, strLeB a b = true ∨ strLeB b a = true := by
  intro a b
  by_cases h : strLtL b.data a.data = true
  · right
    simp only [strLeB, strLtL_asymm _ _ h, Bool.not_false]
  · left
    simp only [strLeB, Bool.not_eq_true] at h ⊢
    simp [h]

theorem strLeB_trans : ∀ a b c : String, strLeB a b = true → strLeB b c = true →
    strLeB a c = true := by
  intro a b c hab hbc
  simp only [strLeB, Bool.not_eq_true'] at hab hbc ⊢
  by_contra hcon
  simp only [Bool.not_eq_false] at hcon
  by_cases hbc2 : strLtL b.data c.data = true
  · have hba : strLtL b.data a.data = true := strLtL_trans _ _ _ hbc2 hcon
    rw [hba] at hab
    exact absurd hab (by simp)
  · have heq : b.data = c.data :=
      strLtL_connex _ _ (by simpa using hbc2) hbc
    rw [heq] at hab
    rw [hcon] at hab
    exact absurd hab (by simp)

/-- Sorting a list of string keys ascending, as Python sorted does. -/
def sortKeys (l : List String) : List String := sortBy strLeB l

theorem sortKeys_pairwise (l : List String) :
    (sortKeys l).Pairwise (fun a b => strLeB a b = true) :=
  sortBy_pairwise strLeB strLeB_total strLeB_trans l

theorem mem_sortKeys (l : List String) (a : String) : a ∈ sortKeys l ↔ a ∈ l :=
  mem_sortBy strLeB l a

theorem sortKeys_nodup (l : List String) (h : l.Nodup) : (sortKeys l).Nodup :=
  sortBy_nodup strLeB l h

/-! ### JSON values -/

/-- JSON trees as Python json.load produces them: null, booleans, numbers
(one numeric tower, modelled by the rationals), strings, arrays and
objects. Objects are association lists in insertion order; parsed JSON
objects never carry duplicate keys. -/
inductive Json where
  | null : Json
  | bool (b : Bool) : Json
  | num (q : ℚ) : Json
  | str (s : String) : Json
  | arr (xs : List Json) : Json
  | obj (kvs : List (String × Json)) : Json

/-- Python dict key lookup (at most one binding per key in parsed JSON). -/
def lookupJ (k : String) : List (String × Json) → Option Json
  | [] => none
  | (k', v) :: rest => if k' = k then some v else lookupJ k rest

/-- Python d.get(k) on a JSON object; none when the value is not an object. -/
def objGet (j : Json) (k : String) : Option Json :=
  match j with
  | .obj kvs => lookupJ k kvs
  | _ => none

/-- Python d.get(k, default). -/
def jGetD (j : Json) (k : String) (d : Json) : Json := (objGet j k).getD d

/-- Python dict .items() on a JSON object. -/
def jItems (j : Json) : List (String × Json) :=
  match j with
  | .obj kvs => kvs
  | _ => []

/-- The element list of a JSON array. -/
def asArr (j : Json) : List Json :=
  match j with
  | .arr xs => xs
  | _ => []

mutual

/-- Python == on parsed JSON values: arrays compare pointwise, objects
compare as dictionaries, insensitive to key order. -/
def jsonEq : Json → Json → Bool
  | .null, .null => true
  | .bool a, .bool b => a == b
  | .num a, .num b => a == b
  | .str a, .str b => a == b
  | .arr xs, .arr ys => jarrEq xs ys
  | .obj d1, .obj d2 => jobjSub d1 d2 && d2.all (fun p => (lookupJ p.1 d1).isSome)
  | _, _ => false

def jarrEq : List Json → List Json → Bool
  | [], [] => true
  | x :: xs, y :: ys => jsonEq x y && jarrEq xs ys
  | _, _ => false

def jobjSub : List (String × Json) → List (String × Json) → Bool
  | [], _ => true
  | (k, v) :: rest, d2 =>
      (match lookupJ k d2 with
       | some v2 => jsonEq v v2
       | none => false) && jobjSub rest d2

end

/-- Duplicate-freedom of a key list, computably. -/
def dupFree : List String → Bool
  | [] => true
  | k :: ks => !(ks.contains k) && dupFree ks

mutual

/-- Well-formedness of a parsed JSON value: every object in the tree has
duplicate-free keys. Every value json.load returns satisfies this. -/
def wfJ : Json → Bool
  | .null => true
  | .bool _ => true
  | .num _ => true
  | .str _ => true
  | .arr xs => wfArr xs
  | .obj kvs => dupFree (kvs.map Prod.fst) && wfObj kvs

def wfArr : List Json → Bool
  | [] => true
  | x :: xs => wfJ x && wfArr xs

def wfObj : List (String × Json) → Bool
  | [] => true
  | (_, v) :: rest => wfJ v && wfObj rest

end

theorem lookupJ_self_of_dupFree :
    ∀ (kvs : List (String × Json)) (k : String) (v : Json),
      dupFree (kvs.map Prod.fst) = true → (k, v) ∈ kvs → lookupJ k kvs = some v := by
  intro kvs
  induction kvs with
  | nil => intro k v _ h; cases h
  | cons p rest ih =>
      intro k v hdf hm
      obtain ⟨k', v'⟩ := p
      simp only [List.map_cons, dupFree, Bool.and_eq_true, Bool.not_eq_true'] at hdf
      obtain ⟨hdf1, hdf2⟩ := hdf
      have hnotmem : k' ∉ (rest.map Prod.fst) := by simpa using hdf1
      rcases List.mem_cons.mp hm with heq | hm
      · cases heq
        simp [lookupJ]
      · have hne : k' ≠ k := by
          intro h
          subst h
          exact hnotmem (List.mem_map_of_mem Prod.fst hm)
        simp only [lookupJ, if_neg hne]
        exact ih k v hdf2 hm

theorem lookupJ_isSome_of_mem :
    ∀ (kvs : List (String × Json)) (k : String) (v : Json),
      (k, v) ∈ kvs → (lookupJ k kvs).isSome = true := by
  intro kvs
  induction kvs with
  | nil => intro k v h; cases h
  | cons p rest ih =>
      intro k v hm
      obtain ⟨k', v'⟩ := p
      by_cases h : k' = k
      · simp [lookupJ, h]
      · simp only [lookupJ, if_neg h]
        rcases List.mem_cons.mp hm with heq | hm
        · cases heq; exact absurd rfl h
        · exact ih k v hm

theorem jobjSub_of_forall :
    ∀ (d1 d2 : List (String × Json)),
      (∀ p ∈ d1, ∃ v2, lookupJ p.1 d2 = some v2 ∧ jsonEq p.2 v2 = true) →
      jobjSub d1 d2 = true := by
  intro d1 d2 h
  induction d1 with
  | nil => rfl
  | cons p rest ih =>
      obtain ⟨k, v⟩ := p
      obtain ⟨v2, hl, he⟩ := h (k, v) (by simp)
      simp only [jobjSub, hl, he, Bool.true_and]
      exact ih (fun q hq => h q (List.mem_cons_of_mem _ hq))

mutual

theorem jsonEq_refl : ∀ j : Json, wfJ j = true → jsonEq j j = true
  | .null, _ => rfl
  | .bool b, _ => by simp [jsonEq]
  | .num q, _ => by simp [jsonEq]
  | .str s, _ => by simp [jsonEq]
  | .arr xs, h => by
      simp only [jsonEq]
      exact jarrEq_refl xs (by simpa [wfJ] using h)
  | .obj kvs, h => by
      have hdf : dupFree (kvs.map Prod.fst) = true := by
        simp only [wfJ, Bool.and_eq_true] at h
        exact h.1
      have hwf : wfObj kvs = true := by
        simp only [wfJ, Bool.and_eq_true] at h
        exact h.2
      simp only [jsonEq, Bool.and_eq_true]
      constructor
      · refine jobjSub_of_forall kvs kvs ?_
        intro p hp
        exact ⟨p.2, lookupJ_self_of_dupFree kvs p.1 p.2 hdf (by simpa using hp),
          jobjMemRefl kvs hwf p hp⟩
      · refine List.all_eq_true.mpr ?_
        intro p hp
        simpa using lookupJ_isSome_of_mem kvs p.1 p.2 (by simpa using hp)

theorem jarrEq_refl : ∀ xs : List Json, wfArr xs = true → jarrEq xs xs = true
  | [], _ => rfl
  | x :: xs, h => by
      simp only [wfArr, Bool.and_eq_true] at h
      simp only [jarrEq, Bool.and_eq_true]
      exact ⟨jsonEq_refl x h.1, jarrEq_refl xs h.2⟩

theorem jobjMemRefl : ∀ kvs : List (String × Json), wfObj kvs = true →
    ∀ p ∈ kvs, jsonEq p.2 p.2 = true
  | [], _ => by intro p hp; cases hp
  | (k, v) :: rest, h => by
      simp only [wfObj, Bool.and_eq_true] at h
      intro p hp
      rcases List.mem_cons.mp hp with rfl | hp
      · exact jsonEq_refl v h.1
      · exact jobjMemRefl rest h.2 p hp

end

/-! ### The token differ (diff_tokens.py) -/

/-- One entry of the flat token map built by flatten_tokens: the raw token
object together with the collection key, group key and token name. -/
structure FlatTok where
  raw : Json
  collection : String
  group : String
  name : String

/-- The name field of a token object. Parsed tokens documents carry a
string name (DocWF below guarantees it); Python would raise otherwise. -/
def tokenName (t : Json) : String :=
  match objGet t "name" with
  | some (.str s) => s
  | _ => ""

/-- Python grp.get(tokens, grp.get(styles, [])) followed by iteration. -/
def tokenItems (grp : Json) : List Json :=
  asArr (jGetD grp "tokens" (jGetD grp "styles" (.arr [])))

/-- All key-to-token bindings produced by flatten_tokens, in traversal
order. The Python dict built from them keeps the last binding of each
key, which mapLookup below reproduces. -/
def flattenPairs (data : Json) : List (String × FlatTok) :=
  (jItems (jGetD data "collections" (.obj []))).flatMap fun c =>
    (jItems (jGetD c.2 "groups" (.obj []))).flatMap fun g =>
      (tokenItems g.2).map fun t =>
        (c.1 ++ "/" ++ g.1 ++ "/" ++ tokenName t,
         ⟨t, c.1, g.1, tokenName t⟩)

/-- The key set of the flat token map. -/
def mapKeys (l : List (String × FlatTok)) : List String := (l.map Prod.fst).dedup

/-- Dict lookup in the flat token map: the last binding wins, as in the
Python dict assignment of flatten_tokens. -/
def mapLookup (l : List (String × FlatTok)) (k : String) : Option FlatTok :=
  ((l.filter fun p => p.1 == k).getLast?).map Prod.snd

/-- Placeholder token; Python indexing new_tokens[k] always succeeds for
keys drawn from the map, so the default is never reached in diff. -/
def defaultFT : FlatTok := ⟨Json.null, "", "", ""⟩

def lookupD (l : List (String × FlatTok)) (k : String) : FlatTok :=
  (mapLookup l k).getD defaultFT

/-- extract_hex: the hex field of a dict value, a plain string itself,
otherwise nothing. -/
def extract_hex (v : Json) : Option Json :=
  match v with
  | .obj kvs => lookupJ "hex" kvs
  | .str s => some (.str s)
  | _ => none

/-- Digits of the fractional part r/d, fuel-bounded. -/
def fracDigits : Nat → Nat → Nat → List Char
  | 0, _, _ => []
  | _, 0, _ => []
  | fuel + 1, r, d =>
      Char.ofNat (48 + (r * 10) / d) :: fracDigits fuel ((r * 10) % d) d

/-- Decimal rendering of a rational, standing in for Python str() on the
numbers the scripts print. The claims never constrain this rendering. -/
def pyNumStr (q : ℚ) : String :=
  let sign := if q.num < 0 then "-" else ""
  let i := q.num.natAbs / q.den
  let r := q.num.natAbs % q.den
  if r = 0 then sign ++ Nat.repr i
  else sign ++ Nat.repr i ++ "." ++ List.asString (fracDigits 30 r q.den)

mutual

/-- Python str()/repr() of a parsed JSON value, used by token_display when
a value field holds a dict. The claims never constrain this rendering. -/
def pyRepr : Json → String
  | .null => "None"
  | .bool b => if b then "True" else "False"
  | .num q => pyNumStr q
  | .str s => "\x27" ++ s ++ "\x27"
  | .arr xs => "[" ++ pyReprList xs ++ "]"
  | .obj kvs => "\x7b" ++ pyReprObj kvs ++ "\x7d"

def pyReprList : List Json → String
  | [] => ""
  | [x] => pyRepr x
  | x :: xs => pyRepr x ++ ", " ++ pyReprList xs

def pyReprObj : List (String × Json) → String
  | [] => ""
  | [(k, v)] => "\x27" ++ k ++ "\x27: " ++ pyRepr v
  | (k, v) :: kvs => "\x27" ++ k ++ "\x27: " ++ pyRepr v ++ ", " ++ pyReprObj kvs

end

/-- token_display: the flat before/after representation stored in
changelog entries. Keys present with a Python None become JSON null. -/
def token_display (t : Json) : List (String × Json) :=
  (match objGet t "light" with
   | some lv => [("light", (extract_hex lv).getD .null)]
   | none => []) ++
  (match objGet t "dark" with
   | some dv => [("dark", (extract_hex dv).getD .null)]
   | none => []) ++
  (match objGet t "value", objGet t "light" with
   | some v, none =>
      [("value", match v with
                 | .obj kvs => .str (pyRepr (.obj kvs))
                 | other => other)]
   | _, _ => [])

/-- comparable: the token object with every top-level key starting with
the underscore metadata marker removed. Raw tokens in a well-formed
document are objects; Python would raise on anything else. -/
def comparable (t : Json) : Json :=
  match t with
  | .obj kvs => .obj (kvs.filter fun p => !(pyStartsWith "_" p.1))
  | j => j

def mkKey (c g n : String) : String := c ++ "/" ++ g ++ "/" ++ n

def addedEntry (t : FlatTok) : Json :=
  let display := token_display t.raw
  .obj ([("type", .str "added"), ("collection", .str t.collection),
         ("group", .str t.group), ("name", .str t.name)] ++
        (if display.isEmpty then [] else [("value", .obj display)]))

def removedEntry (t : FlatTok) : Json :=
  .obj [("type", .str "removed"), ("collection", .str t.collection),
        ("group", .str t.group), ("name", .str t.name)]

def changedEntry (o n : FlatTok) : Json :=
  .obj [("type", .str "changed"), ("collection", .str n.collection),
        ("group", .str n.group), ("name", .str n.name),
        ("before", .obj (token_display o.raw)),
        ("after", .obj (token_display n.raw))]

/-- diff: added entries over the sorted keys only in new, then removed
entries over the sorted keys only in old, then changed entries over the
sorted common keys whose comparable token objects differ. Python appends
to one list in this exact order; set difference and intersection of the
key sets are filters of the duplicate-free key lists. -/
def diff (oldData newData : Json) : List Json :=
  let oldT := flattenPairs oldData
  let newT := flattenPairs newData
  let oldKeys := mapKeys oldT
  let newKeys := mapKeys newT
  let addedKs := sortKeys (newKeys.filter fun k => !(oldKeys.contains k))
  let removedKs := sortKeys (oldKeys.filter fun k => !(newKeys.contains k))
  let commonKs := sortKeys (oldKeys.filter fun k => newKeys.contains k)
  let changedKs := commonKs.filter fun k =>
    !(jsonEq (comparable (lookupD oldT k).raw) (comparable (lookupD newT k).raw))
  addedKs.map (fun k => addedEntry (lookupD newT k)) ++
  removedKs.map (fun k => removedEntry (lookupD oldT k)) ++
  changedKs.map (fun k => changedEntry (lookupD oldT k) (lookupD newT k))

/-- The string stored under a key of a changelog entry. -/
def entryField (e : Json) (k : String) : String :=
  match objGet e k with
  | some (.str s) => s
  | _ => ""

def entryType (e : Json) : String := entryField e "type"

/-- The flat key a changelog entry refers to, rebuilt from its fields. -/
def entryKey (e : Json) : String :=
  mkKey (entryField e "collection") (entryField e "group") (entryField e "name")

def countType (changes : List Json) (ty : String) : Nat :=
  (changes.filter fun e => entryType e == ty).length

def defaultNotes (a c r : Nat) : String :=
  "Sync: +" ++ Nat.repr a ++ " added, ~" ++ Nat.repr c ++ " changed, -" ++
    Nat.repr r ++ " removed."

/-- The changelog entry the differ appends. -/
def mkLogEntry (now : String) (changes : List Json) (notes : Option String) : Json :=
  let a := countType changes "added"
  let c := countType changes "changed"
  let r := countType changes "removed"
  .obj [("date", .str now), ("changes", .arr changes),
        ("summary", .obj [("added", .num a), ("changed", .num c), ("removed", .num r)]),
        ("notes", .str (notes.getD (defaultNotes a c r)))]

/-- Python dict assignment d[k] = v: replace the binding in place when the
key exists, append a new binding otherwise. -/
def setKeyJ (kvs : List (String × Json)) (k : String) (v : Json) : List (String × Json) :=
  if (lookupJ k kvs).isSome then
    kvs.map fun p => if p.1 = k then (k, v) else p
  else kvs ++ [(k, v)]

/-- new_data with the entry appended to its changelog array (an absent
changelog starts from the empty list). -/
def appendChangelog (newData : Json) (entry : Json) : Json :=
  let changelog := asArr (jGetD newData "changelog" (.arr []))
  .obj (setKeyJ (jItems newData) "changelog" (.arr (changelog ++ [entry])))

/-- The document-level effect of the differ main: none when no changes are
detected (no write happens), otherwise the rewritten new document. -/
def differMain (oldData newData : Json) (notes : Option String) (now : String) :
    Option Json :=
  let changes := diff oldData newData
  if changes.isEmpty then none
  else some (appendChangelog newData (mkLogEntry now changes notes))

/-- The file-system effect of the differ main, over an abstract store from
paths to file contents and abstract parse/print functions: a failed open
or parse aborts before any write; a no-op diff writes nothing; otherwise
exactly the new path is rewritten. -/
def differFS (parseJ : String → Option Json) (printJ : Json → String)
    (oldPath newPath : String) (notes : Option String) (now : String)
    (fs : String → Option String) : String → Option String :=
  match (fs oldPath).bind parseJ, (fs newPath).bind parseJ with
  | some oldData, some newData =>
      (match differMain oldData newData notes now with
       | none => fs
       | some result => fun p => if p = newPath then some (printJ result) else fs p)
  | _, _ => fs

def isObjB : Json → Bool
  | .obj _ => true
  | _ => false

def tokenListWF : List Json → Bool
  | [] => true
  | t :: ts =>
      (match objGet t "name" with
       | some (.str _) => true
       | _ => false) && tokenListWF ts

def groupWF (g : Json) : Bool :=
  isObjB g &&
  (match objGet g "tokens" with
   | some (.arr ts) => tokenListWF ts
   | some _ => false
   | none =>
      match objGet g "styles" with
      | some (.arr ts) => tokenListWF ts
      | some _ => false
      | none => true)

def groupsWF : List (String × Json) → Bool
  | [] => true
  | (_, g) :: rest => groupWF g && groupsWF rest

def collWF (c : Json) : Bool :=
  isObjB c &&
  (match objGet c "groups" with
   | some (.obj gs) => groupsWF gs
   | some _ => false
   | none => true)

def collsWF : List (String × Json) → Bool
  | [] => true
  | (_, c) :: rest => collWF c && collsWF rest

/-- Shape of a well-formed tokens document, as the differ assumes it: a
JSON object whose objects have duplicate-free keys, whose collections
value (when present) is an object of collections, each with an object of
groups whose token or style lists are arrays of objects carrying string
names, and whose changelog (when present) is an array. The differ's
claims quantify over such documents; on anything else Python aborts with
an uncaught exception before writing. -/
def DocWF (d : Json) : Bool :=
  wfJ d && isObjB d &&
  (match objGet d "collections" with
   | some (.obj cs) => collsWF cs
   | some _ => false
   | none => true) &&
  (match objGet d "changelog" with
   | some (.arr _) => true
   | some _ => false
   | none => true)

/-! ### The token builder (build_tokens.py): rgb_to_hex and helpers -/

/-- One uppercase hexadecimal digit. -/
def hexChar (n : Nat) : Char := if n < 10 then Char.ofNat (48 + n) else Char.ofNat (55 + n)

/-- Uppercase hexadecimal digits of n, fuel-bounded (16 digits cover every
value the scripts format; the channel values here are below 256). -/
def hexAux : Nat → Nat → List Char
  | 0, _ => []
  | fuel + 1, n => if n < 16 then [hexChar n] else hexAux fuel (n / 16) ++ [hexChar (n % 16)]

def hexUpper (n : Nat) : String := List.asString (hexAux 16 n)

/-- Python format spec 02X: uppercase hex, zero-padded to width two (the
sign counts toward the width for negative values). -/
def format02X (n : ℤ) : String :=
  if n < 0 then "-" ++ hexUpper n.natAbs
  else if (hexUpper n.toNat).length < 2 then "0" ++ hexUpper n.toNat
  else hexUpper n.toNat

/-- Python round() of the fraction n/d for d > 0: nearest integer, ties to
the even neighbour. Expressed over the numerator and denominator so that
it evaluates by kernel reduction. -/
def pyRoundFrac (n d : ℤ) : ℤ :=
  let fl := n.fdiv d
  let r2 := 2 * (n - fl * d)
  if r2 < d then fl
  else if d < r2 then fl + 1
  else if fl % 2 = 0 then fl else fl + 1

/-- Python round() on a rational. -/
def pyRound (q : ℚ) : ℤ := pyRoundFrac q.num q.den

/-- rgb_to_hex: each channel is scaled by 255, rounded with Python round
semantics and formatted as 02X; the multiplication channel*255 is carried
out on the exact fraction num*255/den. -/
def rgb_to_hex (r g b : ℚ) : String :=
  format02X (pyRoundFrac (r.num * 255) r.den) ++
  format02X (pyRoundFrac (g.num * 255) g.den) ++
  format02X (pyRoundFrac (b.num * 255) b.den)

/-- Rounding to the nearest integer with ties to even, written with the
floor and fractional-part operations: the reference form of Python round
used to state the rgb_to_hex claim. -/
def bround (x : ℚ) : ℤ :=
  if Int.fract x < 1/2 then ⌊x⌋
  else if (1 : ℚ)/2 < Int.fract x then ⌊x⌋ + 1
  else if ⌊x⌋ % 2 = 0 then ⌊x⌋ else ⌊x⌋ + 1

/-- get_alias_suffix: the last slash-separated segment. -/
def get_alias_suffix (alias_ : String) : String :=
  if pyInStr "/" alias_ then (pySplit '/' alias_).getLastD alias_ else alias_

/-! ### Builder input data model -/

/-- One mode of a variable collection. -/
structure ModeDef where
  id : String
  name : String

/-- The per-mode value record of a variable. resolved models
values[mode].get("resolved") and is none both when the key is absent and
when it holds JSON null; aliasV and aliasId model the optional alias and
aliasId keys. -/
structure ModeVal where
  resolved : Option Json
  aliasV : Option String
  aliasId : Option String

/-- One variable of a collection: id is var.get("id", "") with the
default already applied, name and type are the mandatory var["name"] and
var["type"], description is var.get("description", ""). -/
structure FigVar where
  id : String
  name : String
  type : String
  description : String
  values : List (String × ModeVal)

/-- One variable collection of the extracted input array. -/
structure FigCol where
  id : String
  name : String
  modes : List ModeDef
  vars : List FigVar

/-- find_collection: the first collection with the given name. -/
def find_collection (collections : List FigCol) (name : String) : Option FigCol :=
  collections.find? fun c => c.name == name

/-- get_collection_meta: the restore block with collection and mode ids. -/
def get_collection_meta (c : FigCol) : Json :=
  .obj [("collectionId", .str c.id),
        ("modes", .obj (c.modes.map fun m => (m.name, Json.str m.id)))]

/-- Mode lookup in a values dict by mode name. -/
def lookupMode (values : List (String × ModeVal)) (m : String) : Option ModeVal :=
  (values.filter fun p => p.1 == m).head?.map Prod.snd

/-- get_figma_ids: the metadata keys every emitted token carries. -/
def get_figma_ids (v : FigVar) : List (String × Json) :=
  let aliasIds := v.values.filterMap fun p => (p.2.aliasId).map fun a => (p.1, Json.str a)
  [("_figmaId", .str v.id)] ++ (if aliasIds.isEmpty then [] else [("_aliasIds", .obj aliasIds)])

/-- A stored token value: Python keeps the resolved value, which json.dump
writes as null when it is None. -/
def optValueField (resolved : Option Json) : Json := resolved.getD .null

/-- First slash-separated segment of a name (the whole name when no slash
occurs, exactly as name.split(slash)[0] behaves). -/
def firstSegment (name : String) : String := (pySplit '/' name).headD name

/-- Group assembly shared by the typography and size builders: groups are
declared in a fixed order, filled by a pass over the variables, and empty
groups are dropped at the end. -/
def assembleGroups (specs : List (String × String)) (toks : String → List Json) :
    List (String × Json) :=
  specs.filterMap fun p =>
    let ts := toks p.1
    if ts.isEmpty then none
    else some (p.1, Json.obj [("label", .str p.2), ("tokens", .arr ts)])

/-! ### Typography, size and state builders -/

def typoGroupSpecs : List (String × String) :=
  [("family", "Family"), ("weight", "Weight"), ("size", "Size"),
   ("height", "Height"), ("spacing", "Spacing")]

/-- The token build_typography_collection emits for one variable into the
group g: the variable must have at least two name segments, its second
segment must be g, and its values must contain the mode named Default;
the value field is stored for STRING and FLOAT variables. -/
def emitTypo (g : String) (v : FigVar) : Option Json :=
  let parts := pySplit '/' v.name
  if parts.length < 2 then none
  else if parts.getD 1 "" ≠ g then none
  else
    match lookupMode v.values "Default" with
    | none => none
    | some mv =>
        some (.obj ([("name", .str v.name), ("description", .str v.description)] ++
          get_figma_ids v ++
          (if v.type = "STRING" ∨ v.type = "FLOAT"
           then [("value", optValueField mv.resolved)] else [])))

def build_typography_collection (figma_data : List FigCol) : Json :=
  match find_collection figma_data "Typography" with
  | none => .obj [("name", .str "Typography"), ("groups", .obj [])]
  | some tc =>
      .obj [("name", .str "Typography"),
            ("_meta", get_collection_meta tc),
            ("groups", .obj (assembleGroups typoGroupSpecs
              fun g => tc.vars.filterMap (emitTypo g)))]

def sizeGroupSpecs : List (String × String) :=
  [("spacing", "Spacing"), ("radius", "Radius"), ("stroke", "Stroke")]

/-- The token build_size_collection emits for one size variable: grouped
by first name segment, value looked up under the mode named Mode 1. -/
def emitSize (g : String) (v : FigVar) : Option Json :=
  if firstSegment v.name ≠ g then none
  else
    match lookupMode v.values "Mode 1" with
    | none => none
    | some mv =>
        some (.obj ([("name", .str v.name), ("value", optValueField mv.resolved),
                     ("description", .str v.description)] ++ get_figma_ids v))

/-- The token the size builder pulls out of the Color collection for a
stroke-prefixed variable, using the Color collection's Light mode. -/
def emitStrokeMerge (v : FigVar) : Option Json :=
  if pyStartsWith "stroke/" v.name then
    match lookupMode v.values "Light" with
    | none => none
    | some mv =>
        some (.obj ([("name", .str v.name), ("value", optValueField mv.resolved),
                     ("description", .str v.description)] ++ get_figma_ids v))
  else none

def colorStrokeTokens (figma_data : List FigCol) : List Json :=
  match find_collection figma_data "Color" with
  | none => []
  | some cc => cc.vars.filterMap emitStrokeMerge

def build_size_collection (figma_data : List FigCol) : Json :=
  match find_collection figma_data "Size" with
  | none => .obj [("name", .str "Size"), ("groups", .obj [])]
  | some sc =>
      .obj [("name", .str "Size"),
            ("_meta", get_collection_meta sc),
            ("groups", .obj (assembleGroups sizeGroupSpecs fun g =>
              sc.vars.filterMap (emitSize g) ++
              (if g = "stroke" then colorStrokeTokens figma_data else [])))]

/-- The token build_state_collection emits for one variable: every state
variable with a value under the mode named Mode 1, no name filtering. -/
def emitState (v : FigVar) : Option Json :=
  match lookupMode v.values "Mode 1" with
  | none => none
  | some mv =>
      some (.obj ([("name", .str v.name), ("type", .str v.type),
                   ("value", optValueField mv.resolved),
                   ("description", .str v.description)] ++ get_figma_ids v))

def build_state_collection (figma_data : List FigCol) : Json :=
  match find_collection figma_data "State" with
  | none =>
      .obj [("name", .str "State"), ("modes", .arr [.str "default"]),
            ("groups", .obj [("interaction",
              .obj [("label", .str "Interaction"), ("tokens", .arr [])])])]
  | some sc =>
      .obj [("name", .str "State"), ("modes", .arr [.str "default"]),
            ("_meta", get_collection_meta sc),
            ("groups", .obj [("interaction",
              .obj [("label", .str "Interaction"),
                    ("tokens", .arr (sc.vars.filterMap emitState))])])]

/-! ### Styles builder -/

/-- One extracted text style. The builder calls .lower() on fontStyle,
committing it to a string; the other resolved fields pass through
untouched and may be any JSON value or absent. -/
structure TextStyle where
  name : String
  fontFamily : Option Json
  fontStyle : Option String
  fontSize : Option Json
  lineHeight : Option Json
  letterSpacing : Option Json

/-- The resolved Default-mode value of a typography variable, as the
chained var.get(values).get(Default).get(resolved) computes it. -/
def typoResolved (v : FigVar) : Option Json :=
  match lookupMode v.values "Default" with
  | some mv => mv.resolved
  | none => none

/-- Branch guards of the reverse-map construction, one per branch of the
if/elif chain over the typography variables. -/
def famCond (v : FigVar) : Bool := pyInStr "family" v.name && (v.type == "STRING")

def weiCond (v : FigVar) : Bool := pyInStr "weight" v.name && (v.type == "STRING")

def sizCond (v : FigVar) : Bool := pyInStr "size" v.name && (v.type == "FLOAT")

def heiCond (v : FigVar) : Bool := pyInStr "height" v.name && (v.type == "FLOAT")

/-- Reverse map resolved value to variable name; later variables overwrite
earlier ones with the same resolved value, as Python dict stores do. -/
def revMapOf (tc : Option FigCol) (cond : FigVar → Bool) : List (Json × String) :=
  match tc with
  | none => []
  | some c =>
      c.vars.filterMap fun v =>
        match typoResolved v with
        | none => none
        | some rv => if cond v then some (rv, v.name) else none

def font_family_map (tc : Option FigCol) : List (Json × String) :=
  revMapOf tc famCond

def font_weight_map (tc : Option FigCol) : List (Json × String) :=
  revMapOf tc fun v => !famCond v && weiCond v

def font_size_map (tc : Option FigCol) : List (Json × String) :=
  revMapOf tc fun v => !famCond v && !weiCond v && sizCond v

def font_height_map (tc : Option FigCol) : List (Json × String) :=
  revMapOf tc fun v => !famCond v && !weiCond v && !sizCond v && heiCond v

/-- Reverse-map lookup: Python dict lookup by value equality, the last
binding of a key winning. -/
def vlookup (l : List (Json × String)) (k : Json) : Option String :=
  ((l.filter fun p => jsonEq p.1 k).getLast?).map Prod.snd

/-- The lowercased weight name: Python font_style.lower() if font_style
else the regular fallback, falsy strings included. -/
def weightLower (fs : Option String) : String :=
  match fs with
  | none => "regular"
  | some s => if s.isEmpty then "regular" else pyLower s

/-- Python == between an optional JSON value and a number (bools compare
as 0 and 1 in Python). -/
def pyNumEqJ (v : Option Json) (q : ℚ) : Bool :=
  match v with
  | some (.num x) => x == q
  | some (.bool b) => (if b then (1 : ℚ) else 0) == q
  | _ => false

/-- The rational -0.5, in reduced constructor form so that comparisons
against it evaluate by kernel reduction. -/
def negHalf : ℚ := ⟨-1, 2, by decide, by decide⟩

/-- Python str() of a JSON value inside an f-string: strings bare,
everything else via repr. -/
def pyStr (j : Json) : String :=
  match j with
  | .str s => s
  | other => pyRepr other

/-- The letterSpacing recipe entry: two hardcoded symbolic cases and a
formatted fallback for every other value, an absent value included. -/
def spacingLabel (ls : Option Json) : String :=
  if pyNumEqJ ls negHalf then "font/spacing/tight"
  else if pyNumEqJ ls 0 then "font/spacing/normal"
  else "font/spacing/" ++ (match ls with
    | some j => pyStr j
    | none => "None")

/-- The recipe of a text style: fontFamily, fontSize and lineHeight by
reverse lookup with omission on a miss; fontWeight always constructed
from the lowercased font style; letterSpacing by the hardcoded cases. -/
def recipeOf (figma_data : List FigCol) (st : TextStyle) : List (String × Json) :=
  let tc := find_collection figma_data "Typography"
  (match st.fontFamily.bind (vlookup (font_family_map tc)) with
   | some n => [("fontFamily", Json.str n)]
   | none => []) ++
  [("fontWeight", .str ("font/weight/" ++ weightLower st.fontStyle))] ++
  (match st.fontSize.bind (vlookup (font_size_map tc)) with
   | some n => [("fontSize", Json.str n)]
   | none => []) ++
  (match st.lineHeight.bind (vlookup (font_height_map tc)) with
   | some n => [("lineHeight", Json.str n)]
   | none => []) ++
  [("letterSpacing", .str (spacingLabel st.letterSpacing))]

def headingsSpecimen : String := "Fire"

def bodySpecimen : String :=
  "Through the darkness of future\x27s past, the magician longs to see. One chants out between two worlds...Fire walk with me."

def specimenFor (styleName firstSeg : String) : String :=
  if firstSeg = "heading" then headingsSpecimen
  else if firstSeg = "body" then bodySpecimen
  else if firstSeg = "technical" then
    (if pyInStr "code" styleName then "const greeting = \x27Fire walk with me\x27;"
     else "0123456789")
  else ""

def optJ (o : Option Json) : Json := o.getD .null

def optS (o : Option String) : Json :=
  match o with
  | some s => .str s
  | none => .null

/-- The style token build_styles_collection emits for one text style into
the group g (the first segment of the style name). -/
def emitStyle (figma_data : List FigCol) (g : String) (st : TextStyle) : Option Json :=
  if firstSegment st.name ≠ g then none
  else
    some (.obj [("name", .str ("text." ++ pyReplaceChar st.name '/' '.')),
                ("specimen", .str (specimenFor st.name g)),
                ("resolved", .obj [("fontFamily", optJ st.fontFamily),
                                   ("fontStyle", optS st.fontStyle),
                                   ("fontSize", optJ st.fontSize),
                                   ("lineHeight", optJ st.lineHeight),
                                   ("letterSpacing", optJ st.letterSpacing)]),
                ("recipe", .obj (recipeOf figma_data st))])

def stylesGroupSpecs : List (String × String) :=
  [("heading", "Heading"), ("body", "Body"), ("technical", "Technical")]

/-- build_styles_collection: the three style groups are always present,
with no empty-group filtering. -/
def build_styles_collection (figma_data : List FigCol) (text_styles : List TextStyle) : Json :=
  .obj [("name", .str "Styles"),
        ("groups", .obj (stylesGroupSpecs.map fun p =>
          (p.1, Json.obj [("label", Json.str p.2),
                          ("styles", Json.arr (text_styles.filterMap
                            (emitStyle figma_data p.1)))])))]

/-! ### Builder main: changelog carry-forward, backups, CLI -/

/-- The changelog carry-forward step of the builder main over the prior
output file: none models a missing file, some none an unparseable one
(json.JSONDecodeError, caught), some (some j) a parsed prior document.
The overall none result models an uncaught TypeError: Python raises one
when the membership test changelog in existing hits a non-container, or
when indexing existing[changelog] hits a list or string that passed the
membership test. -/
def carryChangelog (base : Json) (prior : Option (Option Json)) : Option Json :=
  match prior with
  | none => some base
  | some none => some base
  | some (some existing) =>
      match existing with
      | .obj kvs =>
          (match lookupJ "changelog" kvs with
           | some c => some (.obj (setKeyJ (jItems base) "changelog" c))
           | none => some base)
      | .arr xs =>
          if xs.any (fun x => jsonEq x (.str "changelog")) then none else some base
      | .str s => if pyInStr "changelog" s then none else some base
      | _ => none

def natLeB (a b : Nat) : Bool := decide (a ≤ b)

/-- The pruning step after one backup copy: the backup directory entries,
abstracted to their modification times, are sorted ascending and all but
the last ten removed when more than ten exist. -/
def pruneBackups (l : List Nat) : List Nat :=
  let s := sortBy natLeB l
  if 10 < s.length then s.drop (s.length - 10) else l

/-- One builder run against an existing output file: shutil.copy2 adds
one backup (abstracted to its modification time), then the prune runs. -/
def backupStep (bs : List Nat) (t : Nat) : List Nat := pruneBackups (bs ++ [t])

/-- Exit code of the builder main as a function of argv: usage plus exit
code one unless exactly three operands follow the program name; a
completed run falls off main and exits zero. -/
def buildExitCode (argv : List String) : Nat := if argv.length ≠ 4 then 1 else 0

def buildPrintsUsage (argv : List String) : Bool := argv.length ≠ 4

/-- Exit code of the differ main as a function of argv: exit code one
exactly when fewer than two operands follow the program name; a completed
run exits zero. -/
def diffExitCode (argv : List String) : Nat := if argv.length < 3 then 1 else 0

/-- The optional notes flag value: the argument after the first
occurrence of the flag, when one exists. -/
def parseNotes (argv : List String) : Option String :=
  match argv.indexOf? "--notes" with
  | some i => if i + 1 < argv.length then some (argv.getD (i + 1) "") else none
  | none => none

/-- Modelled from the claim's wording, for comparison with the code: a
builder invocation with exactly three path operands. -/
def validBuilderArgvSpec (argv : List String) : Bool := argv.length == 4

/-- Modelled from the claim's wording, for comparison with the code: a
differ invocation with the old path, the new path and optionally the
notes flag with its text. -/
def validDifferArgvSpec (argv : List String) : Bool :=
  argv.length == 3 || (argv.length == 5 && (argv.getD 3 "" == "--notes"))

/-! ### Accessors over built collections, for stating the claims -/

def collGroups (c : Json) : List (String × Json) := jItems (jGetD c "groups" (.obj []))

/-- The token list stored under group g of a built collection; the empty
list when the group was filtered out. -/
def groupTokens (c : Json) (g : String) : List Json :=
  asArr (jGetD ((lookupJ g (collGroups c)).getD (.obj [])) "tokens" (.arr []))

/-- The style list stored under group g of the styles collection. -/
def groupStyles (c : Json) (g : String) : List Json :=
  asArr (jGetD ((lookupJ g (collGroups c)).getD (.obj [])) "styles" (.arr []))

theorem lookupJ_assemble_none (specs : List (String × String)) (toks : String → List Json)
    (g : String) (hg : g ∉ specs.map Prod.fst) :
    lookupJ g (assembleGroups specs toks) = none := by
  induction specs with
  | nil => rfl
  | cons p rest ih =>
      obtain ⟨k, lbl⟩ := p
      simp only [List.map_cons, List.mem_cons, not_or] at hg
      have hk : k ≠ g := fun h => hg.1 h.symm
      by_cases he : (toks k).isEmpty
      · simp only [assembleGroups, List.filterMap_cons, he, if_pos]
        exact ih hg.2
      · simp only [assembleGroups, List.filterMap_cons, he, if_neg, Bool.not_eq_true]
        simp only [lookupJ, if_neg hk]
        exact ih hg.2

theorem assembleGroups_cons (k lbl : String) (rest : List (String × String))
    (toks : String → List Json) :
    assembleGroups ((k, lbl) :: rest) toks =
      (if (toks k).isEmpty then assembleGroups rest toks
       else (k, Json.obj [("label", .str lbl), ("tokens", .arr (toks k))]) ::
         assembleGroups rest toks) := by
  by_cases he : (toks k).isEmpty <;> simp [assembleGroups, List.filterMap_cons, he]

theorem groupTokens_assemble (specs : List (String × String)) (toks : String → List Json)
    (g : String) (hnd : dupFree (specs.map Prod.fst) = true) (hg : g ∈ specs.map Prod.fst) :
    asArr (jGetD ((lookupJ g (assembleGroups specs toks)).getD (.obj [])) "tokens" (.arr []))
      = toks g := by
  induction specs with
  | nil => cases hg
  | cons p rest ih =>
      obtain ⟨k, lbl⟩ := p
      simp only [List.map_cons, dupFree, Bool.and_eq_true, Bool.not_eq_true'] at hnd
      obtain ⟨hnd1, hnd2⟩ := hnd
      rw [assembleGroups_cons]
      by_cases hkg : k = g
      · subst hkg
        by_cases he : (toks k).isEmpty
        · have hempty : toks k = [] := List.isEmpty_iff.mp he
          rw [if_pos he]
          have hnot : k ∉ rest.map Prod.fst := by simpa using hnd1
          rw [lookupJ_assemble_none rest toks k hnot]
          simp [jGetD, objGet, lookupJ, asArr, hempty]
        · rw [if_neg he]
          simp [lookupJ, jGetD, objGet, asArr]
      · have hg' : g ∈ rest.map Prod.fst := by
          rcases List.mem_cons.mp hg with h | h
          · exact absurd h.symm hkg
          · exact h
        by_cases he : (toks k).isEmpty
        · rw [if_pos he]
          exact ih hnd2 hg'
        · rw [if_neg he]
          simp only [lookupJ, if_neg hkg]
          exact ih hnd2 hg'

/-! ### Claim C4: rgb_to_hex -/

/-- Exactly two uppercase hexadecimal digits of a value below 256. -/
def twoHexU (n : Nat) : String := List.asString [hexChar (n / 16), hexChar (n % 16)]

theorem pyRoundFrac_eq_bround (n d : ℤ) (hd : 0 < d) :
    pyRoundFrac n d = bround ((n : ℚ) / (d : ℚ)) := by
  have hdq : (0 : ℚ) < (d : ℚ) := by exact_mod_cast hd
  set fl := n.fdiv d with hfl
  set r := n.fmod d with hr
  have hsum : d * fl + r = n := Int.fdiv_add_fmod n d
  have hr0 : 0 ≤ r := Int.fmod_nonneg' n hd
  have hrd : r < d := Int.fmod_lt_of_pos n hd
  have hy : (n : ℚ) / d = fl + r / d := by
    rw [show (n : ℚ) = (d : ℚ) * (fl : ℚ) + (r : ℚ) by exact_mod_cast hsum.symm]
    field_simp
    ring
  have hfrac0 : (0 : ℚ) ≤ (r : ℚ) / d := by positivity
  have hfrac1 : (r : ℚ) / d < 1 := by
    rw [div_lt_one hdq]
    exact_mod_cast hrd
  have hfloor : ⌊(n : ℚ) / d⌋ = fl := by
    rw [hy, Int.floor_eq_iff]
    constructor
    · simpa using hfrac0
    · linarith
  have hfract : Int.fract ((n : ℚ) / d) = (r : ℚ) / d := by
    rw [Int.fract, hfloor, hy]
    ring
  have hlt_iff : ((r : ℚ) / d < 1 / 2) ↔ (2 * r < d) := by
    rw [div_lt_div_iff₀ hdq (by norm_num : (0:ℚ) < 2)]
    constructor
    · intro h
      have h2 : ((2 * r : ℤ) : ℚ) < ((d : ℤ) : ℚ) := by push_cast; linarith
      exact_mod_cast h2
    · intro h
      have h2 : ((2 * r : ℤ) : ℚ) < ((d : ℤ) : ℚ) := by exact_mod_cast h
      push_cast at h2
      linarith
  have hgt_iff : ((1 : ℚ) / 2 < (r : ℚ) / d) ↔ (d < 2 * r) := by
    rw [div_lt_div_iff₀ (by norm_num : (0:ℚ) < 2) hdq]
    constructor
    · intro h
      have h2 : ((d : ℤ) : ℚ) < ((2 * r : ℤ) : ℚ) := by push_cast; linarith
      exact_mod_cast h2
    · intro h
      have h2 : ((d : ℤ) : ℚ) < ((2 * r : ℤ) : ℚ) := by exact_mod_cast h
      push_cast at h2
      linarith
  have hr2 : 2 * (n - fl * d) = 2 * r := by linarith
  simp only [pyRoundFrac, bround]
  rw [hfloor, hfract, ← hfl]
  simp only [hr2]
  rcases lt_trichotomy (2 * r) d with h | h | h
  · rw [if_pos h, if_pos (hlt_iff.mpr h)]
  · have hq1 : ¬ ((r : ℚ) / d < 1 / 2) := by rw [hlt_iff]; omega
    have hq2 : ¬ ((1 : ℚ) / 2 < (r : ℚ) / d) := by rw [hgt_iff]; omega
    rw [if_neg (by omega : ¬ (2 * r < d)), if_neg (by omega : ¬ (d < 2 * r)),
      if_neg hq1, if_neg hq2]
  · have hq1 : ¬ ((r : ℚ) / d < 1 / 2) := by rw [hlt_iff]; omega
    rw [if_neg (by omega : ¬ (2 * r < d)), if_pos h, if_neg hq1, if_pos (hgt_iff.mpr h)]

theorem bround_bounds (y : ℚ) (h0 : 0 ≤ y) (h1 : y ≤ 255) :
    0 ≤ bround y ∧ bround y ≤ 255 := by
  have hf0 : (0 : ℤ) ≤ ⌊y⌋ := Int.floor_nonneg.mpr h0
  have hf255 : ⌊y⌋ ≤ 255 := by
    have : ⌊y⌋ ≤ ⌊(255 : ℚ)⌋ := Int.floor_le_floor h1
    simpa using this
  have hfr0 : 0 ≤ Int.fract y := Int.fract_nonneg y
  constructor
  · unfold bround
    split
    · exact hf0
    · split
      · omega
      · split <;> omega
  · unfold bround
    split
    · exact hf255
    · have hfloor_lt : ⌊y⌋ + 1 ≤ 255 := by
        by_contra hcon
        push_neg at hcon
        have h255 : ⌊y⌋ = 255 := by omega
        have : Int.fract y = y - 255 := by
          rw [Int.fract, h255]
          norm_num
        have hfr : Int.fract y ≤ 0 := by
          rw [this]
          linarith
        have : ¬ Int.fract y < 1 / 2 := by assumption
        have : (1 : ℚ) / 2 ≤ Int.fract y := not_lt.mp this
        linarith
      split
      · exact hfloor_lt
      · split <;> omega

theorem format02X_eq_twoHexU (n : ℤ) (h0 : 0 ≤ n) (h1 : n ≤ 255) :
    format02X n = twoHexU n.toNat := by
  have hn : ¬ n < 0 := not_lt.mpr h0
  set m := n.toNat with hm
  have hm255 : m ≤ 255 := by omega
  rw [format02X, if_neg hn]
  by_cases hlt : m < 16
  · have hdiv : m / 16 = 0 := Nat.div_eq_of_lt hlt
    have hmod : m % 16 = m := Nat.mod_eq_of_lt hlt
    have hhex : hexUpper m = List.asString [hexChar m] := by
      rw [hexUpper]
      rw [show hexAux 16 m = if m < 16 then [hexChar m]
            else hexAux 15 (m / 16) ++ [hexChar (m % 16)] from rfl, if_pos hlt]
    rw [hhex]
    have hlen : (List.asString [hexChar m]).length < 2 := by
      simp [List.asString, String.length]
    rw [if_pos hlen, twoHexU, hdiv, hmod]
    rfl
  · have hdivlt : m / 16 < 16 := by omega
    have hhex : hexUpper m = List.asString [hexChar (m / 16), hexChar (m % 16)] := by
      rw [hexUpper]
      rw [show hexAux 16 m = if m < 16 then [hexChar m]
            else hexAux 15 (m / 16) ++ [hexChar (m % 16)] from rfl, if_neg hlt]
      rw [show hexAux 15 (m / 16) = if m / 16 < 16 then [hexChar (m / 16)]
            else hexAux 14 (m / 16 / 16) ++ [hexChar (m / 16 % 16)] from rfl, if_pos hdivlt]
      rfl
    rw [hhex]
    have hlen : ¬ (List.asString [hexChar (m / 16), hexChar (m % 16)]).length < 2 := by
      simp [List.asString, String.length]
    rw [if_neg hlen, twoHexU]

/-- C4: for channels in the unit interval, rgb_to_hex is the concatenation
of the three channels, each independently rounded by round(channel*255)
with Python tie-to-even semantics and formatted as exactly two uppercase
hexadecimal digits, with no clamping beyond the round; in particular
rgb_to_hex 1 0 0 is FF0000 and rgb_to_hex 0 0 0 is 000000. -/
theorem rgb_to_hex_spec (r g b : ℚ)
    (hr0 : 0 ≤ r) (hr1 : r ≤ 1) (hg0 : 0 ≤ g) (hg1 : g ≤ 1)
    (hb0 : 0 ≤ b) (hb1 : b ≤ 1) :
    rgb_to_hex r g b =
      twoHexU (bround (r * 255)).toNat ++ twoHexU (bround (g * 255)).toNat ++
        twoHexU (bround (b * 255)).toNat
    ∧ (∀ n : Nat, (twoHexU n).length = 2)
    ∧ rgb_to_hex 1 0 0 = "FF0000" ∧ rgb_to_hex 0 0 0 = "000000" := by
  have channel : ∀ x : ℚ, 0 ≤ x → x ≤ 1 →
      format02X (pyRoundFrac (x.num * 255) x.den) = twoHexU (bround (x * 255)).toNat := by
    intro x hx0 hx1
    have hden : (0 : ℤ) < (x.den : ℤ) := by exact_mod_cast x.pos
    have heq := pyRoundFrac_eq_bround (x.num * 255) (x.den : ℤ) hden
    have hform : ((x.num * 255 : ℤ) : ℚ) / (((x.den : ℤ)) : ℚ) = x * 255 := by
      push_cast
      rw [show x * 255 = ((x.num : ℚ) / (x.den : ℚ)) * 255 by rw [Rat.num_div_den],
        div_mul_eq_mul_div]
    rw [heq, hform]
    have hb := bround_bounds (x * 255) (by positivity) (by linarith)
    exact format02X_eq_twoHexU _ hb.1 hb.2
  refine ⟨?_, fun n => rfl, ?_, ?_⟩
  · rw [rgb_to_hex, channel r hr0 hr1, channel g hg0 hg1, channel b hb0 hb1]
  · rfl
  · rfl

/-- Witness for rgb_to_hex_spec at the channels 1, 0, 0. -/
theorem rgb_to_hex_spec_witness :
    ((0 : ℚ) ≤ 1 ∧ (1 : ℚ) ≤ 1) ∧
    (rgb_to_hex 1 0 0 =
        twoHexU (bround ((1 : ℚ) * 255)).toNat ++ twoHexU (bround ((0 : ℚ) * 255)).toNat ++
          twoHexU (bround ((0 : ℚ) * 255)).toNat
      ∧ (∀ n : Nat, (twoHexU n).length = 2)
      ∧ rgb_to_hex 1 0 0 = "FF0000" ∧ rgb_to_hex 0 0 0 = "000000") :=
  ⟨⟨by norm_num, le_refl 1⟩,
   rgb_to_hex_spec 1 0 0 (by norm_num) (by norm_num) (by norm_num) (by norm_num)
     (by norm_num) (by norm_num)⟩

/-! ### Claim C3: fixed mode names per collection -/

theorem lookupJ_append (k : String) (l1 l2 : List (String × Json))
    (h : ∀ p ∈ l1, p.1 ≠ k) : lookupJ k (l1 ++ l2) = lookupJ k l2 := by
  induction l1 with
  | nil => rfl
  | cons p rest ih =>
      obtain ⟨k', v⟩ := p
      have hk : k' ≠ k := h (k', v) (by simp)
      simp only [List.cons_append, lookupJ, if_neg hk]
      exact ih fun q hq => h q (List.mem_cons_of_mem _ hq)

theorem figma_ids_no_value (v : FigVar) : ∀ p ∈ get_figma_ids v, p.1 ≠ "value" := by
  intro p hp
  rw [get_figma_ids] at hp
  rcases List.mem_append.mp hp with h | h
  · simp only [List.mem_singleton] at h
    subst h
    simp
  · split at h
    · cases h
    · simp only [List.mem_singleton] at h
      subst h
      simp

/-- The group-token lists of the built typography collection. -/
theorem build_typography_groups (figma_data : List FigCol) (tc : FigCol)
    (htc : find_collection figma_data "Typography" = some tc) :
    ∀ g ∈ typoGroupSpecs.map Prod.fst,
      groupTokens (build_typography_collection figma_data) g
        = tc.vars.filterMap (emitTypo g) := by
  intro g hg
  rw [groupTokens, build_typography_collection, htc]
  have hcg : collGroups (Json.obj [("name", .str "Typography"),
      ("_meta", get_collection_meta tc),
      ("groups", .obj (assembleGroups typoGroupSpecs
        fun g => tc.vars.filterMap (emitTypo g)))])
      = assembleGroups typoGroupSpecs (fun g => tc.vars.filterMap (emitTypo g)) := rfl
  rw [hcg]
  exact groupTokens_assemble typoGroupSpecs _ g (by decide) hg

/-- The group-token lists of the built size collection, the stroke merge
from the Color collection included. -/
theorem build_size_groups (figma_data : List FigCol) (sc : FigCol)
    (hsc : find_collection figma_data "Size" = some sc) :
    ∀ g ∈ sizeGroupSpecs.map Prod.fst,
      groupTokens (build_size_collection figma_data) g
        = sc.vars.filterMap (emitSize g) ++
          (if g = "stroke" then colorStrokeTokens figma_data else []) := by
  intro g hg
  rw [groupTokens, build_size_collection, hsc]
  have hcg : collGroups (Json.obj [("name", .str "Size"),
      ("_meta", get_collection_meta sc),
      ("groups", .obj (assembleGroups sizeGroupSpecs fun g =>
        sc.vars.filterMap (emitSize g) ++
        (if g = "stroke" then colorStrokeTokens figma_data else [])))])
      = assembleGroups sizeGroupSpecs (fun g =>
          sc.vars.filterMap (emitSize g) ++
          (if g = "stroke" then colorStrokeTokens figma_data else [])) := rfl
  rw [hcg]
  exact groupTokens_assemble sizeGroupSpecs _ g (by decide) hg

/-- The interaction-token list of the built state collection. -/
theorem build_state_groups (figma_data : List FigCol) (sc : FigCol)
    (hsc : find_collection figma_data "State" = some sc) :
    groupTokens (build_state_collection figma_data) "interaction"
      = sc.vars.filterMap emitState := by
  rw [groupTokens, build_state_collection, hsc]
  rfl

/-- C3 (amended): the builder looks token values up under one fixed
hardcoded mode name per collection, Default for Typography, Mode 1 for
Size and Mode 1 (not Light) for State; a variable whose values lack the
fixed mode contributes no token, never an error, and an emitted token's
value field carries the resolved value of exactly that mode. -/
theorem builder_mode_lookup (figma_data : List FigCol) :
    (∀ tc, find_collection figma_data "Typography" = some tc →
      ∀ g ∈ typoGroupSpecs.map Prod.fst,
        groupTokens (build_typography_collection figma_data) g
          = tc.vars.filterMap (emitTypo g))
    ∧ (∀ g v, lookupMode v.values "Default" = none → emitTypo g v = none)
    ∧ (∀ g v mv, lookupMode v.values "Default" = some mv →
        ∀ tok, emitTypo g v = some tok →
          objGet tok "value" = if v.type = "STRING" ∨ v.type = "FLOAT"
            then some (optValueField mv.resolved) else none)
    ∧ (∀ sc, find_collection figma_data "Size" = some sc →
      ∀ g ∈ sizeGroupSpecs.map Prod.fst,
        groupTokens (build_size_collection figma_data) g
          = sc.vars.filterMap (emitSize g) ++
            (if g = "stroke" then colorStrokeTokens figma_data else []))
    ∧ (∀ g v, lookupMode v.values "Mode 1" = none → emitSize g v = none)
    ∧ (∀ g v mv, lookupMode v.values "Mode 1" = some mv →
        ∀ tok, emitSize g v = some tok →
          objGet tok "value" = some (optValueField mv.resolved))
    ∧ (∀ sc, find_collection figma_data "State" = some sc →
        groupTokens (build_state_collection figma_data) "interaction"
          = sc.vars.filterMap emitState)
    ∧ (∀ v, lookupMode v.values "Mode 1" = none → emitState v = none)
    ∧ (∀ v mv, lookupMode v.values "Mode 1" = some mv →
        ∀ tok, emitState v = some tok →
          objGet tok "value" = some (optValueField mv.resolved)) := by
  refine ⟨fun tc h => build_typography_groups figma_data tc h, ?_, ?_,
    fun sc h => build_size_groups figma_data sc h, ?_, ?_,
    fun sc h => build_state_groups figma_data sc h, ?_, ?_⟩
  · intro g v h
    simp [emitTypo, h]
  · intro g v mv h tok htok
    rw [emitTypo] at htok
    split at htok
    · exact absurd htok (by simp)
    · split at htok
      · exact absurd htok (by simp)
      · rw [h] at htok
        cases htok
        show lookupJ "value"
          ([("name", .str v.name), ("description", .str v.description)] ++
            (get_figma_ids v ++ _)) = _
        rw [show ([("name", Json.str v.name), ("description", Json.str v.description)] ++
            (get_figma_ids v ++ (if v.type = "STRING" ∨ v.type = "FLOAT"
              then [("value", optValueField mv.resolved)] else [])))
          = (([("name", Json.str v.name), ("description", Json.str v.description)] ++
              get_figma_ids v) ++ (if v.type = "STRING" ∨ v.type = "FLOAT"
              then [("value", optValueField mv.resolved)] else [])) by
            rw [List.append_assoc]]
        rw [lookupJ_append "value" _ _ (by
          intro p hp
          rcases List.mem_append.mp hp with hh | hh
          · rcases List.mem_cons.mp hh with rfl | hh
            · simp
            · rcases List.mem_cons.mp hh with rfl | hh
              · simp
              · cases hh
          · exact figma_ids_no_value v p hh)]
        split
        · rfl
        · rfl
  · intro g v h
    simp [emitSize, h]
  · intro g v mv h tok htok
    rw [emitSize] at htok
    split at htok
    · exact absurd htok (by simp)
    · rw [h] at htok
      cases htok
      rfl
  · intro v h
    simp [emitState, h]
  · intro v mv h tok htok
    rw [emitState] at htok
    rw [h] at htok
    cases htok
    rfl

/-- A state variable carrying only a Light-mode value. -/
def cexStateVar : FigVar :=
  ⟨"id1", "hover", "FLOAT", "", [("Light", ⟨some (.num 5), none, none⟩)]⟩

def cexStateData : List FigCol := [⟨"cid", "State", [⟨"m1", "Light"⟩], [cexStateVar]⟩]

/-- Counterexample to C3 as stated: a State variable whose values contain
the mode named Light (with resolved value 5) produces no token at all,
because build_state_collection looks values up under Mode 1, not Light;
under the claim the interaction group would carry this value. -/
theorem state_light_mode_cex :
    lookupMode cexStateVar.values "Light" = some ⟨some (.num 5), none, none⟩
    ∧ groupTokens (build_state_collection cexStateData) "interaction" = [] :=
  ⟨rfl, rfl⟩

/-- Concrete builder input used by the witnesses. -/
def tcW : FigCol :=
  ⟨"T1", "Typography", [⟨"mD", "Default"⟩],
   [⟨"v1", "font/size/1000", "FLOAT", "", [("Default", ⟨some (.num 48), none, none⟩)]⟩,
    ⟨"v1b", "font/family/body", "STRING", "", [("Default", ⟨some (.str "Outfit"), none, none⟩)]⟩]⟩

def sizeColW : FigCol :=
  ⟨"S1", "Size", [⟨"m1", "Mode 1"⟩],
   [⟨"v2", "stroke/width", "FLOAT", "", [("Mode 1", ⟨some (.num 1), none, none⟩)]⟩]⟩

def colorColW : FigCol :=
  ⟨"C1", "Color", [⟨"mL", "Light"⟩, ⟨"mDk", "Dark"⟩],
   [⟨"v3", "stroke/focus", "FLOAT", "", [("Light", ⟨some (.num 2), none, none⟩)]⟩]⟩

def stateColW : FigCol :=
  ⟨"St1", "State", [⟨"m1", "Mode 1"⟩],
   [⟨"v4", "hover", "FLOAT", "", [("Mode 1", ⟨some (.num 3), none, none⟩)]⟩]⟩

def dataW : List FigCol := [colorColW, tcW, sizeColW, stateColW]

/-- Witness for builder_mode_lookup at a concrete input. -/
theorem builder_mode_lookup_witness :
    (find_collection dataW "State" = some stateColW) ∧
    groupTokens (build_state_collection dataW) "interaction"
      = stateColW.vars.filterMap emitState :=
  ⟨rfl, ((builder_mode_lookup dataW).2.2.2.2.2.2.1) stateColW rfl⟩

/-! ### Claim C6: the stroke merge from the Color collection -/

/-- C6 (amended): provided the input contains a Size collection, the
stroke group of the built size collection is the Size collection's own
stroke tokens followed by one token per Color-collection variable whose
name starts with the stroke prefix and whose values contain the Light
mode, carrying that Light-mode resolved value; without a Size collection
the builder returns the empty placeholder before the merge runs. -/
theorem size_stroke_merge (figma_data : List FigCol) :
    (∀ sc, find_collection figma_data "Size" = some sc →
      groupTokens (build_size_collection figma_data) "stroke"
        = sc.vars.filterMap (emitSize "stroke") ++ colorStrokeTokens figma_data)
    ∧ (∀ cc, find_collection figma_data "Color" = some cc →
        ∀ v ∈ cc.vars, pyStartsWith "stroke/" v.name = true →
          ∀ mv, lookupMode v.values "Light" = some mv →
            Json.obj ([("name", .str v.name), ("value", optValueField mv.resolved),
              ("description", .str v.description)] ++ get_figma_ids v)
              ∈ colorStrokeTokens figma_data) := by
  constructor
  · intro sc hsc
    have h := build_size_groups figma_data sc hsc "stroke" (by decide)
    simpa using h
  · intro cc hcc v hv hpre mv hmv
    rw [colorStrokeTokens, hcc]
    refine List.mem_filterMap.mpr ⟨v, hv, ?_⟩
    rw [emitStrokeMerge, if_pos hpre, hmv]

def cexStrokeVar : FigVar :=
  ⟨"id2", "stroke/focus", "FLOAT", "", [("Light", ⟨some (.num 2), none, none⟩)]⟩

def cexColorOnly : List FigCol := [⟨"cidC", "Color", [⟨"mL", "Light"⟩], [cexStrokeVar]⟩]

/-- Counterexample to C6 as stated: an input whose Color collection holds
a stroke-prefixed variable with a Light value but which has no Size
collection yields an empty stroke group, because build_size_collection
returns its placeholder before the merge; the claim as stated promises a
merged token for every such input. -/
theorem size_stroke_cex :
    pyStartsWith "stroke/" cexStrokeVar.name = true
    ∧ lookupMode cexStrokeVar.values "Light" = some ⟨some (.num 2), none, none⟩
    ∧ groupTokens (build_size_collection cexColorOnly) "stroke" = [] :=
  ⟨rfl, rfl, rfl⟩

/-- Witness for size_stroke_merge at a concrete input. -/
theorem size_stroke_merge_witness :
    (find_collection dataW "Size" = some sizeColW) ∧
    groupTokens (build_size_collection dataW) "stroke"
      = sizeColW.vars.filterMap (emitSize "stroke") ++ colorStrokeTokens dataW :=
  ⟨rfl, (size_stroke_merge dataW).1 sizeColW rfl⟩

/-! ### Claim C5: the styles recipes -/

/-- C5 (amended): the style groups of the built styles collection are the
filtered text styles; each emitted style token carries the recipe built
by recipeOf; in that recipe fontFamily, fontSize and lineHeight are
present exactly when the reverse lookup of the style's resolved value in
the maps built from the Typography collection's resolved values succeeds
(and hold the found variable name), while fontWeight is always present
and equal to the constructed font/weight/ label of the lowercased font
style (never a reverse lookup), and letterSpacing maps -0.5 to
font/spacing/tight, 0 to font/spacing/normal and anything else to the
formatted fallback label. -/
theorem styles_recipe_spec (figma_data : List FigCol) (text_styles : List TextStyle) :
    (∀ g ∈ stylesGroupSpecs.map Prod.fst,
      groupStyles (build_styles_collection figma_data text_styles) g
        = text_styles.filterMap (emitStyle figma_data g))
    ∧ (∀ st tok g, emitStyle figma_data g st = some tok →
        objGet tok "recipe" = some (.obj (recipeOf figma_data st)))
    ∧ (∀ st,
        lookupJ "fontFamily" (recipeOf figma_data st)
          = (st.fontFamily.bind
              (vlookup (font_family_map (find_collection figma_data "Typography")))).map Json.str
        ∧ lookupJ "fontSize" (recipeOf figma_data st)
          = (st.fontSize.bind
              (vlookup (font_size_map (find_collection figma_data "Typography")))).map Json.str
        ∧ lookupJ "lineHeight" (recipeOf figma_data st)
          = (st.lineHeight.bind
              (vlookup (font_height_map (find_collection figma_data "Typography")))).map Json.str
        ∧ lookupJ "fontWeight" (recipeOf figma_data st)
          = some (.str ("font/weight/" ++ weightLower st.fontStyle))
        ∧ lookupJ "letterSpacing" (recipeOf figma_data st)
          = some (.str (spacingLabel st.letterSpacing))) := by
  refine ⟨?_, ?_, ?_⟩
  · intro g hg
    have hg' : g = "heading" ∨ g = "body" ∨ g = "technical" := by
      simpa [stylesGroupSpecs] using hg
    rcases hg' with rfl | rfl | rfl <;> rfl
  · intro st tok g htok
    rw [emitStyle] at htok
    split at htok
    · exact absurd htok (by simp)
    · cases htok
      rfl
  · intro st
    rcases hA : st.fontFamily.bind
        (vlookup (font_family_map (find_collection figma_data "Typography"))) with _ | nf <;>
    rcases hB : st.fontSize.bind
        (vlookup (font_size_map (find_collection figma_data "Typography"))) with _ | ns <;>
    rcases hC : st.lineHeight.bind
        (vlookup (font_height_map (find_collection figma_data "Typography"))) with _ | nh <;>
      simp [recipeOf, lookupJ, hA, hB, hC]

/-- A text style with a Bold font style and nothing else resolved. -/
def cexStyle : TextStyle := ⟨"heading/big", none, some "Bold", none, none, none⟩

/-- Counterexample to C5 as stated: with no Typography collection at all
every reverse-lookup map is empty, so under the claim the recipe would
omit fontWeight; the code nevertheless emits the constructed label
font/weight/bold, which is no Typography variable name. -/
theorem styles_fontweight_cex :
    font_weight_map (find_collection [] "Typography") = []
    ∧ lookupJ "fontWeight" (recipeOf [] cexStyle) = some (.str "font/weight/bold") :=
  ⟨rfl, rfl⟩

/-- Witness for styles_recipe_spec at a concrete input. -/
theorem styles_recipe_spec_witness :
    ("heading" ∈ stylesGroupSpecs.map Prod.fst) ∧
    groupStyles (build_styles_collection dataW [cexStyle]) "heading"
      = [cexStyle].filterMap (emitStyle dataW "heading") :=
  ⟨by decide, (styles_recipe_spec dataW [cexStyle]).1 "heading" (by decide)⟩

/-! ### Claim C7: changelog carry-forward -/

theorem lookupJ_setKeyJ (kvs : List (String × Json)) (k : String) (v : Json) :
    lookupJ k (setKeyJ kvs k v) = some v := by
  rw [setKeyJ]
  by_cases h : (lookupJ k kvs).isSome
  · rw [if_pos h]
    induction kvs with
    | nil => simp [lookupJ] at h
    | cons p rest ih =>
        obtain ⟨k', v'⟩ := p
        by_cases hk : k' = k
        · subst hk
          simp only [List.map_cons]
          simp [lookupJ]
        · simp only [List.map_cons]
          have : ¬ (k', v').1 = k := hk
          rw [if_neg this]
          simp only [lookupJ, if_neg hk]
          apply ih
          simpa [lookupJ, if_neg hk] using h
  · rw [if_neg h]
    induction kvs with
    | nil => simp [lookupJ]
    | cons p rest ih =>
        obtain ⟨k', v'⟩ := p
        have hk : k' ≠ k := by
          intro hkk
          subst hkk
          simp [lookupJ] at h
        simp only [List.cons_append, lookupJ, if_neg hk]
        apply ih
        simpa [lookupJ, if_neg hk] using h

theorem filter_setKeyJ (kvs : List (String × Json)) (k : String) (v : Json) :
    (setKeyJ kvs k v).filter (fun p => p.1 ≠ k)
      = kvs.filter (fun p => p.1 ≠ k) := by
  rw [setKeyJ]
  by_cases h : (lookupJ k kvs).isSome
  · rw [if_pos h]
    clear h
    induction kvs with
    | nil => rfl
    | cons p rest ih =>
        obtain ⟨k', v'⟩ := p
        by_cases hk : k' = k
        · subst hk
          have h1 : ¬ ((k', v).1 ≠ k') := by simp
          have h2 : ¬ ((k', v').1 ≠ k') := by simp
          simp only [List.map_cons, if_pos rfl, List.filter_cons]
          rw [if_neg (by simpa using h1), if_neg (by simpa using h2)]
          exact ih
        · simp only [List.map_cons]
          rw [if_neg (by simpa using hk)]
          simp only [List.filter_cons]
          by_cases hne : (k', v').1 ≠ k
          · rw [if_pos (by simpa using hne), if_pos (by simpa using hne)]
            rw [ih]
          · exact absurd hk (by simpa using hne)
  · rw [if_neg h]
    rw [List.filter_append]
    have : List.filter (fun p => decide (p.1 ≠ k)) [(k, v)] = [] := by
      simp [List.filter_cons]
    rw [this, List.append_nil]

/-- C7 (amended): when the prior output file is missing, unparseable, or
parses to an object without a changelog key, the builder proceeds and the
new document is the freshly built one; when it parses to an object with a
changelog key, that value is copied unchanged into the new document and
every other field of the built document is untouched. A prior file that
parses to something other than an object falls outside the guarantee:
the membership test or the indexing can raise an uncaught TypeError. -/
theorem changelog_carry_spec (base : Json) :
    (carryChangelog base none = some base)
    ∧ (carryChangelog base (some none) = some base)
    ∧ (∀ kvs, lookupJ "changelog" kvs = none →
        carryChangelog base (some (some (.obj kvs))) = some base)
    ∧ (∀ kvs c, lookupJ "changelog" kvs = some c →
        carryChangelog base (some (some (.obj kvs)))
          = some (.obj (setKeyJ (jItems base) "changelog" c)))
    ∧ (∀ kvs c result, lookupJ "changelog" kvs = some c →
        carryChangelog base (some (some (.obj kvs))) = some result →
        objGet result "changelog" = some c
        ∧ (jItems result).filter (fun p => p.1 ≠ "changelog")
            = (jItems base).filter (fun p => p.1 ≠ "changelog")) := by
  refine ⟨rfl, rfl, ?_, ?_, ?_⟩
  · intro kvs h
    simp [carryChangelog, h]
  · intro kvs c h
    simp [carryChangelog, h]
  · intro kvs c result h hres
    simp only [carryChangelog, h] at hres
    cases hres
    constructor
    · exact lookupJ_setKeyJ (jItems base) "changelog" c
    · exact filter_setKeyJ (jItems base) "changelog" c

/-- Counterexample to C7 as stated: a prior file holding the parseable
JSON document 5 lacks a changelog field, yet the builder does not proceed
silently: the membership test changelog in existing raises an uncaught
TypeError (modelled by the none result). -/
theorem changelog_carry_cex :
    carryChangelog (Json.obj [("exportedAt", .str "t"), ("collections", .obj [])])
      (some (some (.num 5))) = none := rfl

def baseW : Json := .obj [("exportedAt", .str "t"), ("collections", .obj [])]

/-- Witness for changelog_carry_spec at a concrete prior document. -/
theorem changelog_carry_spec_witness :
    (lookupJ "changelog" [("changelog", Json.arr [.str "e1"])] = some (.arr [.str "e1"])) ∧
    carryChangelog baseW (some (some (.obj [("changelog", Json.arr [.str "e1"])])))
      = some (.obj (setKeyJ (jItems baseW) "changelog" (.arr [.str "e1"]))) :=
  ⟨rfl, (changelog_carry_spec baseW).2.2.2.1 _ _ rfl⟩

/-! ### Claim C8: backup rotation -/

theorem sortBy_length {α : Type} (le : α → α → Bool) (l : List α) :
    (sortBy le l).length = l.length := (sortBy_perm le l).length_eq

theorem backupStep_le_ten (bs : List Nat) (t : Nat) : (backupStep bs t).length ≤ 10 := by
  rw [backupStep, pruneBackups]
  by_cases h : 10 < (sortBy natLeB (bs ++ [t])).length
  · rw [if_pos h]
    rw [List.length_drop]
    omega
  · rw [if_neg h]
    rw [← sortBy_length natLeB (bs ++ [t])]
    omega

theorem foldl_backup_sorted (ts : List Nat) (hsort : ts.Pairwise (· < ·)) :
    List.foldl backupStep [] ts = ts.drop (ts.length - 10) := by
  induction ts using List.reverseRecOn with
  | nil => rfl
  | append_singleton init t ih =>
      rw [List.pairwise_append] at hsort
      obtain ⟨hinit, _, hlt⟩ := hsort
      have hltall : ∀ a ∈ init, a < t := fun a ha => hlt a ha t (by simp)
      rw [List.foldl_append, List.foldl_cons, List.foldl_nil, ih hinit]
      have hstsort : (init.drop (init.length - 10)).Pairwise (· < ·) :=
        List.Pairwise.sublist (List.drop_sublist _ _) hinit
      have hstlt : ∀ a ∈ init.drop (init.length - 10), a < t :=
        fun a ha => hltall a (List.mem_of_mem_drop ha)
      have hfull : (init.drop (init.length - 10) ++ [t]).Pairwise (· < ·) := by
        rw [List.pairwise_append]
        refine ⟨hstsort, List.pairwise_singleton _ _, ?_⟩
        intro a ha b hb
        simp only [List.mem_singleton] at hb
        subst hb
        exact hstlt a ha
      have hchain : (init.drop (init.length - 10) ++ [t]).Pairwise
          (fun a b => natLeB a b = true) := by
        refine hfull.imp ?_
        intro a b hab
        simp only [natLeB, decide_eq_true_eq]
        omega
      have hsorteq : sortBy natLeB (init.drop (init.length - 10) ++ [t])
          = init.drop (init.length - 10) ++ [t] :=
        sortBy_eq_self_of_sorted natLeB _ hchain
      have hstlen : (init.drop (init.length - 10)).length
          = init.length - (init.length - 10) := List.length_drop _ _
      rw [backupStep]
      simp only [pruneBackups]
      rw [hsorteq]
      by_cases hc : 10 < (init.drop (init.length - 10) ++ [t]).length
      · rw [if_pos hc]
        have hlen10 : (init.drop (init.length - 10)).length = 10 := by
          rw [List.length_append, List.length_singleton] at hc
          omega
        have hn10 : 10 ≤ init.length := by
          rw [hstlen] at hlen10
          omega
        rw [List.length_append, List.length_singleton, hlen10]
        rw [List.drop_append_eq_append_drop, hlen10]
        norm_num
        rw [List.drop_append_eq_append_drop]
        have h1 : init.length - 10 + 1 = init.length + 1 - 10 := by omega
        have h2 : init.length + 1 - 10 - init.length = 0 := by omega
        rw [h1, h2, List.drop_zero]
      · rw [if_neg hc]
        have hsmall : init.length ≤ 9 := by
          rw [List.length_append, List.length_singleton, hstlen] at hc
          omega
        have hz : init.length - 10 = 0 := by omega
        have hz2 : init.length + 1 - 10 = 0 := by omega
        rw [hz, List.drop_zero, List.length_append, List.length_singleton, hz2, List.drop_zero]

/-- C8: every build against an existing output path leaves at most ten
backup files, and twelve sequential builder runs starting from an empty
backup directory with strictly increasing backup timestamps leave exactly
ten backups: all but the two oldest. -/
theorem backup_prune_spec :
    (∀ bs t, (backupStep bs t).length ≤ 10)
    ∧ (∀ ts : List Nat, ts.length = 12 → ts.Pairwise (· < ·) →
        List.foldl backupStep [] ts = ts.drop 2
        ∧ (List.foldl backupStep [] ts).length = 10) := by
  refine ⟨backupStep_le_ten, ?_⟩
  intro ts hlen hsort
  have h := foldl_backup_sorted ts hsort
  rw [hlen] at h
  norm_num at h
  refine ⟨h, ?_⟩
  rw [h, List.length_drop, hlen]

/-- Witness for backup_prune_spec across twelve concrete runs. -/
theorem backup_prune_spec_witness :
    (([1, 2, 3, 4, 5, 6, 7, 8, 9, 10, 11, 12] : List Nat).length = 12
      ∧ ([1, 2, 3, 4, 5, 6, 7, 8, 9, 10, 11, 12] : List Nat).Pairwise (· < ·)) ∧
    (List.foldl backupStep [] [1, 2, 3, 4, 5, 6, 7, 8, 9, 10, 11, 12]
        = ([1, 2, 3, 4, 5, 6, 7, 8, 9, 10, 11, 12] : List Nat).drop 2
      ∧ (List.foldl backupStep [] [1, 2, 3, 4, 5, 6, 7, 8, 9, 10, 11, 12]).length = 10) :=
  ⟨⟨rfl, by decide⟩,
   backup_prune_spec.2 [1, 2, 3, 4, 5, 6, 7, 8, 9, 10, 11, 12] rfl (by decide)⟩

/-! ### Claim C9: CLI argument handling -/

/-- C9 (amended): the builder exits 1 and prints its usage exactly when
argv does not consist of the program name and three operands, exiting 0
otherwise; the differ exits 1 exactly when fewer than two operands follow
the program name — an invocation with extra arguments, although not a
valid form, is tolerated and completes with exit 0. -/
theorem cli_exit_spec (argv : List String) :
    (buildExitCode argv = 1 ↔ argv.length ≠ 4)
    ∧ (buildPrintsUsage argv = true ↔ argv.length ≠ 4)
    ∧ (buildExitCode argv = 0 ↔ argv.length = 4)
    ∧ (diffExitCode argv = 1 ↔ argv.length < 3)
    ∧ (diffExitCode argv = 0 ↔ 3 ≤ argv.length) := by
  refine ⟨?_, ?_, ?_, ?_, ?_⟩
  · by_cases h : argv.length = 4 <;> simp [buildExitCode, h]
  · by_cases h : argv.length = 4 <;> simp [buildPrintsUsage, h]
  · by_cases h : argv.length = 4 <;> simp [buildExitCode, h]
  · by_cases h : argv.length < 3 <;> simp [diffExitCode, h]
  · by_cases h : argv.length < 3 <;> simp [diffExitCode, h] <;> omega

def cexArgv : List String := ["diff_tokens.py", "old.json", "new.json", "extra"]

/-- Counterexample to C9 as stated: four arguments form no valid differ
invocation (neither the two-operand nor the notes form), yet the differ
does not exit 1: its only argument check is a lower bound of two
operands, so this run completes with exit code 0. -/
theorem cli_extra_arg_cex :
    validDifferArgvSpec cexArgv = false ∧ diffExitCode cexArgv = 0 :=
  ⟨rfl, rfl⟩

/-- Witness for cli_exit_spec at a concrete argv. -/
theorem cli_exit_spec_witness :
    (buildExitCode ["build_tokens.py", "a", "b", "c"] = 1
        ↔ (["build_tokens.py", "a", "b", "c"] : List String).length ≠ 4)
    ∧ (buildPrintsUsage ["build_tokens.py", "a", "b", "c"] = true
        ↔ (["build_tokens.py", "a", "b", "c"] : List String).length ≠ 4)
    ∧ (buildExitCode ["build_tokens.py", "a", "b", "c"] = 0
        ↔ (["build_tokens.py", "a", "b", "c"] : List String).length = 4)
    ∧ (diffExitCode ["build_tokens.py", "a", "b", "c"] = 1
        ↔ (["build_tokens.py", "a", "b", "c"] : List String).length < 3)
    ∧ (diffExitCode ["build_tokens.py", "a", "b", "c"] = 0
        ↔ 3 ≤ (["build_tokens.py", "a", "b", "c"] : List String).length) :=
  cli_exit_spec ["build_tokens.py", "a", "b", "c"]

/-! ### Well-formedness propagation and flat-map lemmas for the differ -/

theorem dupFree_iff_nodup (l : List String) : dupFree l = true ↔ l.Nodup := by
  induction l with
  | nil => simp [dupFree]
  | cons k ks ih =>
      simp only [dupFree, Bool.and_eq_true, Bool.not_eq_true', List.nodup_cons, ih]
      constructor
      · rintro ⟨h1, h2⟩
        exact ⟨by simpa using h1, h2⟩
      · rintro ⟨h1, h2⟩
        exact ⟨by simpa using h1, h2⟩

theorem wfObj_iff (kvs : List (String × Json)) :
    wfObj kvs = true ↔ ∀ p ∈ kvs, wfJ p.2 = true := by
  induction kvs with
  | nil => simp [wfObj]
  | cons p rest ih =>
      obtain ⟨k, v⟩ := p
      simp only [wfObj, Bool.and_eq_true, ih, List.mem_cons]
      constructor
      · rintro ⟨h1, h2⟩ q hq
        rcases hq with rfl | hq
        · exact h1
        · exact h2 q hq
      · intro h
        exact ⟨h (k, v) (Or.inl rfl), fun q hq => h q (Or.inr hq)⟩

theorem wfArr_iff (xs : List Json) :
    wfArr xs = true ↔ ∀ x ∈ xs, wfJ x = true := by
  induction xs with
  | nil => simp [wfArr]
  | cons x rest ih =>
      simp only [wfArr, Bool.and_eq_true, ih, List.mem_cons]
      constructor
      · rintro ⟨h1, h2⟩ q hq
        rcases hq with rfl | hq
        · exact h1
        · exact h2 q hq
      · intro h
        exact ⟨h x (Or.inl rfl), fun q hq => h q (Or.inr hq)⟩

theorem lookupJ_mem (k : String) (kvs : List (String × Json)) (v : Json)
    (h : lookupJ k kvs = some v) : (k, v) ∈ kvs := by
  induction kvs with
  | nil => cases h
  | cons p rest ih =>
      obtain ⟨k', v'⟩ := p
      by_cases hk : k' = k
      · subst hk
        simp [lookupJ] at h
        simp [h]
      · simp only [lookupJ, if_neg hk] at h
        exact List.mem_cons_of_mem _ (ih h)

theorem wfJ_objGet (j : Json) (k : String) (v : Json)
    (hj : wfJ j = true) (h : objGet j k = some v) : wfJ v = true := by
  cases j <;> simp only [objGet] at h <;> try cases h
  case obj kvs =>
    simp only [wfJ, Bool.and_eq_true] at hj
    exact (wfObj_iff kvs).mp hj.2 (k, v) (lookupJ_mem k kvs v h)

theorem wfJ_jGetD (j : Json) (k : String) (dflt : Json)
    (hj : wfJ j = true) (hd : wfJ dflt = true) : wfJ (jGetD j k dflt) = true := by
  rw [jGetD]
  cases h : objGet j k with
  | none => simpa using hd
  | some v =>
      simp only [Option.getD_some]
      exact wfJ_objGet j k v hj h

theorem wfJ_jItems (j : Json) (hj : wfJ j = true) :
    ∀ p ∈ jItems j, wfJ p.2 = true := by
  intro p hp
  cases j with
  | obj kvs =>
      simp only [wfJ, Bool.and_eq_true] at hj
      exact (wfObj_iff kvs).mp hj.2 p hp
  | null => simp [jItems] at hp
  | bool b => simp [jItems] at hp
  | num q => simp [jItems] at hp
  | str s => simp [jItems] at hp
  | arr xs => simp [jItems] at hp

theorem wfJ_asArr (j : Json) (hj : wfJ j = true) :
    ∀ x ∈ asArr j, wfJ x = true := by
  intro x hx
  cases j with
  | arr xs => exact (wfArr_iff xs).mp (by simpa [wfJ] using hj) x hx
  | null => simp [asArr] at hx
  | bool b => simp [asArr] at hx
  | num q => simp [asArr] at hx
  | str s => simp [asArr] at hx
  | obj kvs => simp [asArr] at hx

theorem flatten_raw_wf (d : Json) (hd : wfJ d = true) :
    ∀ p ∈ flattenPairs d, wfJ p.2.raw = true := by
  intro p hp
  simp only [flattenPairs, List.mem_flatMap, List.mem_map] at hp
  obtain ⟨c, hc, g, hg, t, ht, rfl⟩ := hp
  have hcolls : wfJ (jGetD d "collections" (.obj [])) = true :=
    wfJ_jGetD d "collections" (.obj []) hd rfl
  have hcwf : wfJ c.2 = true := wfJ_jItems _ hcolls c hc
  have hgroups : wfJ (jGetD c.2 "groups" (.obj [])) = true :=
    wfJ_jGetD c.2 "groups" (.obj []) hcwf rfl
  have hgwf : wfJ g.2 = true := wfJ_jItems _ hgroups g hg
  have hstyles : wfJ (jGetD g.2 "styles" (.arr [])) = true :=
    wfJ_jGetD g.2 "styles" (.arr []) hgwf rfl
  have htoks : wfJ (jGetD g.2 "tokens" (jGetD g.2 "styles" (.arr []))) = true :=
    wfJ_jGetD g.2 "tokens" _ hgwf hstyles
  exact wfJ_asArr _ htoks t ht

theorem comparable_wf (t : Json) (h : wfJ t = true) : wfJ (comparable t) = true := by
  cases t <;> simp only [comparable]
  all_goals try exact h
  case obj kvs =>
    simp only [wfJ, Bool.and_eq_true] at h ⊢
    constructor
    · rw [dupFree_iff_nodup]
      refine List.Nodup.sublist ?_ ((dupFree_iff_nodup _).mp h.1)
      exact List.Sublist.map Prod.fst (List.filter_sublist kvs)
    · rw [wfObj_iff]
      intro p hp
      exact (wfObj_iff kvs).mp h.2 p (List.mem_filter.mp hp).1

theorem flattenPairs_key (d : Json) :
    ∀ p ∈ flattenPairs d, p.1 = mkKey p.2.collection p.2.group p.2.name := by
  intro p hp
  simp only [flattenPairs, List.mem_flatMap, List.mem_map] at hp
  obtain ⟨c, _, g, _, t, _, rfl⟩ := hp
  rfl

theorem getLast?_mem_of_eq {α : Type} (l : List α) (a : α)
    (h : l.getLast? = some a) : a ∈ l := by
  induction l with
  | nil => cases h
  | cons x xs ih =>
      cases xs with
      | nil =>
          simp only [List.getLast?_singleton, Option.some.injEq] at h
          simp [h]
      | cons y ys =>
          rw [List.getLast?_cons_cons] at h
          exact List.mem_cons_of_mem _ (ih h)

theorem mapLookup_mem (l : List (String × FlatTok)) (k : String) (ft : FlatTok)
    (h : mapLookup l k = some ft) : (k, ft) ∈ l := by
  rw [mapLookup] at h
  cases hl : (l.filter fun p => p.1 == k).getLast? with
  | none => rw [hl] at h; cases h
  | some pr =>
      rw [hl] at h
      simp at h
      have hmem := getLast?_mem_of_eq _ pr hl
      rw [List.mem_filter] at hmem
      obtain ⟨hin, hbeq⟩ := hmem
      have hk : pr.1 = k := by simpa using hbeq
      obtain ⟨a, b⟩ := pr
      have hb : b = ft := h
      have ha : a = k := hk
      subst hb
      subst ha
      exact hin

theorem mapLookup_isSome (l : List (String × FlatTok)) (k : String)
    (h : k ∈ mapKeys l) : (mapLookup l k).isSome = true := by
  rw [mapKeys, List.mem_dedup] at h
  obtain ⟨p, hp, hpk⟩ := List.mem_map.mp h
  have hmem : p ∈ l.filter fun q => q.1 == k :=
    List.mem_filter.mpr ⟨hp, by simp [hpk]⟩
  have hne : (l.filter fun q => q.1 == k) ≠ [] := List.ne_nil_of_mem hmem
  rw [mapLookup]
  cases hl : (l.filter fun q => q.1 == k).getLast? with
  | none => exact absurd (List.getLast?_isSome.mpr hne) (by simp [hl])
  | some pr => simp

theorem lookupD_key (l : List (String × FlatTok)) (k : String)
    (hk : k ∈ mapKeys l)
    (hkeys : ∀ p ∈ l, p.1 = mkKey p.2.collection p.2.group p.2.name) :
    mkKey (lookupD l k).collection (lookupD l k).group (lookupD l k).name = k := by
  obtain ⟨ft, hft⟩ := Option.isSome_iff_exists.mp (mapLookup_isSome l k hk)
  rw [lookupD, hft, Option.getD_some]
  exact (hkeys (k, ft) (mapLookup_mem l k ft hft)).symm

theorem entryType_added (t : FlatTok) : entryType (addedEntry t) = "added" := rfl

theorem entryType_removed (t : FlatTok) : entryType (removedEntry t) = "removed" := rfl

theorem entryType_changed (o n : FlatTok) : entryType (changedEntry o n) = "changed" := rfl

theorem entryKey_added (t : FlatTok) :
    entryKey (addedEntry t) = mkKey t.collection t.group t.name := rfl

theorem entryKey_removed (t : FlatTok) :
    entryKey (removedEntry t) = mkKey t.collection t.group t.name := rfl

theorem entryKey_changed (o n : FlatTok) :
    entryKey (changedEntry o n) = mkKey n.collection n.group n.name := rfl

/-! ### Claim C1: the diff characterization -/

/-- C1: the differ's output is exactly: added entries for the keys present
only in the new flat map, removed entries for the keys present only in
the old one, and changed entries for the keys present in both whose token
objects differ once every underscore-prefixed top-level key is excluded;
every entry is of one of the three types, each of the three lists is
sorted by key and duplicate-free, and two tokens whose comparable parts
coincide (they differ only in underscore-prefixed fields) produce no
changed entry. -/
theorem diff_spec (od nd : Json) (ho : DocWF od = true) (hn : DocWF nd = true) :
    ((diff od nd).filter (fun e => entryType e == "added")).map entryKey
        = sortKeys ((mapKeys (flattenPairs nd)).filter
            (fun k => !((mapKeys (flattenPairs od)).contains k)))
    ∧ ((diff od nd).filter (fun e => entryType e == "removed")).map entryKey
        = sortKeys ((mapKeys (flattenPairs od)).filter
            (fun k => !((mapKeys (flattenPairs nd)).contains k)))
    ∧ ((diff od nd).filter (fun e => entryType e == "changed")).map entryKey
        = (sortKeys ((mapKeys (flattenPairs od)).filter
            (fun k => (mapKeys (flattenPairs nd)).contains k))).filter
            (fun k => !(jsonEq (comparable (lookupD (flattenPairs od) k).raw)
                          (comparable (lookupD (flattenPairs nd) k).raw)))
    ∧ (∀ e ∈ diff od nd,
        entryType e = "added" ∨ entryType e = "removed" ∨ entryType e = "changed")
    ∧ (((diff od nd).filter (fun e => entryType e == "added")).map entryKey).Pairwise
        (fun a b => strLeB a b = true)
    ∧ (((diff od nd).filter (fun e => entryType e == "removed")).map entryKey).Pairwise
        (fun a b => strLeB a b = true)
    ∧ (((diff od nd).filter (fun e => entryType e == "changed")).map entryKey).Pairwise
        (fun a b => strLeB a b = true)
    ∧ (((diff od nd).filter (fun e => entryType e == "added")).map entryKey).Nodup
    ∧ (((diff od nd).filter (fun e => entryType e == "removed")).map entryKey).Nodup
    ∧ (((diff od nd).filter (fun e => entryType e == "changed")).map entryKey).Nodup
    ∧ (∀ k ro rn, mapLookup (flattenPairs od) k = some ro →
        mapLookup (flattenPairs nd) k = some rn →
        comparable ro.raw = comparable rn.raw →
        ∀ e ∈ diff od nd, entryType e = "changed" → entryKey e ≠ k) := by
  have hwo : wfJ od = true := by
    simp only [DocWF, Bool.and_eq_true] at ho
    exact ho.1.1.1
  have hwn : wfJ nd = true := by
    simp only [DocWF, Bool.and_eq_true] at hn
    exact hn.1.1.1
  set oldT := flattenPairs od with hOT
  set newT := flattenPairs nd with hNT
  set addedKs := sortKeys ((mapKeys newT).filter
      (fun k => !((mapKeys oldT).contains k))) with hAK
  set removedKs := sortKeys ((mapKeys oldT).filter
      (fun k => !((mapKeys newT).contains k))) with hRK
  set commonKs := sortKeys ((mapKeys oldT).filter
      (fun k => (mapKeys newT).contains k)) with hCK
  set changedKs := commonKs.filter
      (fun k => !(jsonEq (comparable (lookupD oldT k).raw)
                    (comparable (lookupD newT k).raw))) with hXK
  set A := addedKs.map (fun k => addedEntry (lookupD newT k)) with hA
  set R := removedKs.map (fun k => removedEntry (lookupD oldT k)) with hR
  set C := changedKs.map (fun k => changedEntry (lookupD oldT k) (lookupD newT k)) with hC
  have hdiff : diff od nd = A ++ R ++ C := by
    rw [hA, hR, hC, hAK, hRK, hXK, hCK, hOT, hNT]
    rfl
  have htA : ∀ e ∈ A, entryType e = "added" := by
    intro e he
    obtain ⟨k, _, rfl⟩ := List.mem_map.mp he
    rfl
  have htR : ∀ e ∈ R, entryType e = "removed" := by
    intro e he
    obtain ⟨k, _, rfl⟩ := List.mem_map.mp he
    rfl
  have htC : ∀ e ∈ C, entryType e = "changed" := by
    intro e he
    obtain ⟨k, _, rfl⟩ := List.mem_map.mp he
    rfl
  have hfA : (diff od nd).filter (fun e => entryType e == "added") = A := by
    rw [hdiff, List.filter_append, List.filter_append]
    rw [List.filter_eq_self.mpr (fun e he => by rw [htA e he]; rfl),
        List.filter_eq_nil_iff.mpr (fun e he => by rw [htR e he]; simp),
        List.filter_eq_nil_iff.mpr (fun e he => by rw [htC e he]; simp)]
    simp
  have hfR : (diff od nd).filter (fun e => entryType e == "removed") = R := by
    rw [hdiff, List.filter_append, List.filter_append]
    rw [List.filter_eq_nil_iff.mpr (fun e he => by rw [htA e he]; simp),
        List.filter_eq_self.mpr (fun e he => by rw [htR e he]; rfl),
        List.filter_eq_nil_iff.mpr (fun e he => by rw [htC e he]; simp)]
    simp
  have hfC : (diff od nd).filter (fun e => entryType e == "changed") = C := by
    rw [hdiff, List.filter_append, List.filter_append]
    rw [List.filter_eq_nil_iff.mpr (fun e he => by rw [htA e he]; simp),
        List.filter_eq_nil_iff.mpr (fun e he => by rw [htR e he]; simp),
        List.filter_eq_self.mpr (fun e he => by rw [htC e he]; rfl)]
    simp
  have hmemA : ∀ k ∈ addedKs, k ∈ mapKeys newT := by
    intro k hk
    have hm : k ∈ (mapKeys newT).filter (fun k => !((mapKeys oldT).contains k)) :=
      (mem_sortBy strLeB _ k).mp hk
    exact (List.mem_filter.mp hm).1
  have hmemR : ∀ k ∈ removedKs, k ∈ mapKeys oldT := by
    intro k hk
    have hm : k ∈ (mapKeys oldT).filter (fun k => !((mapKeys newT).contains k)) :=
      (mem_sortBy strLeB _ k).mp hk
    exact (List.mem_filter.mp hm).1
  have hmemCo : ∀ k ∈ commonKs, k ∈ mapKeys oldT ∧ k ∈ mapKeys newT := by
    intro k hk
    have hm : k ∈ (mapKeys oldT).filter (fun k => (mapKeys newT).contains k) :=
      (mem_sortBy strLeB _ k).mp hk
    obtain ⟨h1, h2⟩ := List.mem_filter.mp hm
    exact ⟨h1, by simpa using h2⟩
  have hmapA : A.map entryKey = addedKs := by
    rw [hA, List.map_map]
    have hcongr : ∀ k ∈ addedKs,
        (entryKey ∘ fun k => addedEntry (lookupD newT k)) k = id k := by
      intro k hk
      simp only [Function.comp_apply, entryKey_added, id]
      exact lookupD_key newT k (hmemA k hk) (flattenPairs_key nd)
    rw [List.map_congr_left hcongr, List.map_id]
  have hmapR : R.map entryKey = removedKs := by
    rw [hR, List.map_map]
    have hcongr : ∀ k ∈ removedKs,
        (entryKey ∘ fun k => removedEntry (lookupD oldT k)) k = id k := by
      intro k hk
      simp only [Function.comp_apply, entryKey_removed, id]
      exact lookupD_key oldT k (hmemR k hk) (flattenPairs_key od)
    rw [List.map_congr_left hcongr, List.map_id]
  have hmapC : C.map entryKey = changedKs := by
    rw [hC, List.map_map]
    have hcongr : ∀ k ∈ changedKs,
        (entryKey ∘ fun k => changedEntry (lookupD oldT k) (lookupD newT k)) k = id k := by
      intro k hk
      simp only [Function.comp_apply, entryKey_changed, id]
      have hkc : k ∈ commonKs := (List.mem_filter.mp hk).1
      exact lookupD_key newT k (hmemCo k hkc).2 (flattenPairs_key nd)
    rw [List.map_congr_left hcongr, List.map_id]
  have hnodupA : addedKs.Nodup :=
    sortBy_nodup strLeB _ (List.Nodup.filter _ (List.nodup_dedup _))
  have hnodupR : removedKs.Nodup :=
    sortBy_nodup strLeB _ (List.Nodup.filter _ (List.nodup_dedup _))
  have hnodupCo : commonKs.Nodup :=
    sortBy_nodup strLeB _ (List.Nodup.filter _ (List.nodup_dedup _))
  refine ⟨by rw [hfA, hmapA], by rw [hfR, hmapR], by rw [hfC, hmapC], ?_, ?_, ?_, ?_,
    ?_, ?_, ?_, ?_⟩
  · intro e he
    rw [hdiff] at he
    rcases List.mem_append.mp he with h | h
    · rcases List.mem_append.mp h with h | h
      · exact Or.inl (htA e h)
      · exact Or.inr (Or.inl (htR e h))
    · exact Or.inr (Or.inr (htC e h))
  · rw [hfA, hmapA, hAK]
    exact sortKeys_pairwise _
  · rw [hfR, hmapR, hRK]
    exact sortKeys_pairwise _
  · rw [hfC, hmapC, hXK]
    exact List.Pairwise.sublist (List.filter_sublist _) (by rw [hCK]; exact sortKeys_pairwise _)
  · rw [hfA, hmapA]
    exact hnodupA
  · rw [hfR, hmapR]
    exact hnodupR
  · rw [hfC, hmapC, hXK]
    exact List.Nodup.filter _ hnodupCo
  · intro k ro rn hro hrn hcomp e he htype
    rw [hdiff] at he
    rcases List.mem_append.mp he with h | h
    · rcases List.mem_append.mp h with h | h
      · rw [htA e h] at htype
        exact absurd htype (by decide)
      · rw [htR e h] at htype
        exact absurd htype (by decide)
    · obtain ⟨k', hk', rfl⟩ := List.mem_map.mp h
      have hkc : k' ∈ commonKs := (List.mem_filter.mp hk').1
      have hkey : entryKey (changedEntry (lookupD oldT k') (lookupD newT k')) = k' := by
        rw [entryKey_changed]
        exact lookupD_key newT k' (hmemCo k' hkc).2 (flattenPairs_key nd)
      rw [hkey]
      intro heq
      subst heq
      have hpred := (List.mem_filter.mp hk').2
      have hro' : lookupD oldT k' = ro := by rw [lookupD, hro, Option.getD_some]
      have hrn' : lookupD newT k' = rn := by rw [lookupD, hrn, Option.getD_some]
      rw [hro', hrn', hcomp] at hpred
      have hwrn : wfJ rn.raw = true :=
        flatten_raw_wf nd hwn (k', rn) (mapLookup_mem newT k' rn hrn)
      rw [jsonEq_refl (comparable rn.raw) (comparable_wf rn.raw hwrn)] at hpred
      simp at hpred

/-- A small well-formed tokens document. -/
def docW : Json :=
  .obj [("exportedAt", .str "2024-01-01T00:00:00+00:00"),
        ("collections", .obj [("color", .obj [("name", .str "Color"),
          ("groups", .obj [("background", .obj [("label", .str "Background"),
            ("tokens", .arr [.obj [("name", .str "background/primary"),
              ("description", .str ""), ("_figmaId", .str "1:2"),
              ("light", .obj [("hex", .str "FFFFFF")])]])])])])])]

/-- docW with the primary hex changed and one token added. -/
def docW2 : Json :=
  .obj [("exportedAt", .str "2024-02-01T00:00:00+00:00"),
        ("collections", .obj [("color", .obj [("name", .str "Color"),
          ("groups", .obj [("background", .obj [("label", .str "Background"),
            ("tokens", .arr [.obj [("name", .str "background/primary"),
              ("description", .str ""), ("_figmaId", .str "1:2"),
              ("light", .obj [("hex", .str "000000")])],
              .obj [("name", .str "background/new"),
              ("description", .str ""), ("_figmaId", .str "1:3"),
              ("light", .obj [("hex", .str "AABBCC")])]])])])])])]

/-- Witness for diff_spec at a concrete pair of documents. -/
theorem diff_spec_witness :
    (DocWF docW = true) ∧
    ((diff docW docW2).filter (fun e => entryType e == "added")).map entryKey
        = sortKeys ((mapKeys (flattenPairs docW2)).filter
            (fun k => !((mapKeys (flattenPairs docW)).contains k))) :=
  ⟨by decide, (diff_spec docW docW2 (by decide) (by decide)).1⟩

/-! ### Claim C2: the no-op guarantee -/

/-- C2: a diff of a document against itself yields no changes; whenever
the computed change list is empty the differ performs no write at all:
the document-level effect is none and the file store is returned
byte-for-byte unchanged, so no changelog entry is appended. -/
theorem diff_noop_spec (d : Json) (hd : DocWF d = true) :
    diff d d = []
    ∧ (∀ od nd notes now, diff od nd = [] → differMain od nd notes now = none)
    ∧ (∀ parseJ printJ oldPath newPath notes now fs oldData newData,
        (fs oldPath).bind parseJ = some oldData →
        (fs newPath).bind parseJ = some newData →
        diff oldData newData = [] →
        differFS parseJ printJ oldPath newPath notes now fs = fs) := by
  have hwd : wfJ d = true := by
    simp only [DocWF, Bool.and_eq_true] at hd
    exact hd.1.1.1
  refine ⟨?_, ?_, ?_⟩
  · have h1 : (mapKeys (flattenPairs d)).filter
        (fun k => !((mapKeys (flattenPairs d)).contains k)) = [] := by
      rw [List.filter_eq_nil_iff]
      intro k hk
      simpa using hk
    have h2 : (sortKeys ((mapKeys (flattenPairs d)).filter
        (fun k => (mapKeys (flattenPairs d)).contains k))).filter
        (fun k => !(jsonEq (comparable (lookupD (flattenPairs d) k).raw)
                    (comparable (lookupD (flattenPairs d) k).raw))) = [] := by
      rw [List.filter_eq_nil_iff]
      intro k hk
      have hkm : k ∈ mapKeys (flattenPairs d) :=
        (List.mem_filter.mp ((mem_sortBy strLeB _ k).mp hk)).1
      obtain ⟨ft, hft⟩ := Option.isSome_iff_exists.mp (mapLookup_isSome _ k hkm)
      have hld : lookupD (flattenPairs d) k = ft := by
        rw [lookupD, hft, Option.getD_some]
      rw [hld]
      have hw : wfJ ft.raw = true :=
        flatten_raw_wf d hwd (k, ft) (mapLookup_mem _ k ft hft)
      rw [jsonEq_refl _ (comparable_wf _ hw)]
      simp
    have hstep : diff d d
        = ((sortKeys ((mapKeys (flattenPairs d)).filter
             (fun k => !((mapKeys (flattenPairs d)).contains k)))).map
             (fun k => addedEntry (lookupD (flattenPairs d) k)))
          ++ ((sortKeys ((mapKeys (flattenPairs d)).filter
             (fun k => !((mapKeys (flattenPairs d)).contains k)))).map
             (fun k => removedEntry (lookupD (flattenPairs d) k)))
          ++ (((sortKeys ((mapKeys (flattenPairs d)).filter
             (fun k => (mapKeys (flattenPairs d)).contains k))).filter
             (fun k => !(jsonEq (comparable (lookupD (flattenPairs d) k).raw)
                         (comparable (lookupD (flattenPairs d) k).raw)))).map
             (fun k => changedEntry (lookupD (flattenPairs d) k)
               (lookupD (flattenPairs d) k))) := rfl
    rw [hstep, h1, h2]
    simp [sortKeys, sortBy]
  · intro od nd notes now h
    simp [differMain, h]
  · intro parseJ printJ oldPath newPath notes now fs oldData newData h1 h2 hempty
    have hmain : differMain oldData newData notes now = none := by
      simp [differMain, hempty]
    simp [differFS, h1, h2, hmain]

/-- Witness for diff_noop_spec at a concrete document. -/
theorem diff_noop_spec_witness :
    (DocWF docW = true) ∧ diff docW docW = [] :=
  ⟨by decide, (diff_noop_spec docW (by decide)).1⟩

/-! ### Claim C10: the differ's frame -/

/-- C10: the differ writes no path other than the new tokens file (in
particular it never writes the old one), and when changes are detected
the rewritten new document differs from the input only at its changelog:
exactly one entry is appended to the changelog array and every other
field is written back unchanged, in order. -/
theorem differ_frame_spec (oldData newData : Json) (hn : DocWF newData = true) :
    (∀ parseJ printJ oldPath newPath notes now fs p, p ≠ newPath →
        differFS parseJ printJ oldPath newPath notes now fs p = fs p)
    ∧ (∀ notes now result, differMain oldData newData notes now = some result →
        (jItems result).filter (fun q => q.1 ≠ "changelog")
            = (jItems newData).filter (fun q => q.1 ≠ "changelog")
        ∧ asArr (jGetD result "changelog" (.arr []))
            = asArr (jGetD newData "changelog" (.arr []))
              ++ [mkLogEntry now (diff oldData newData) notes]) := by
  constructor
  · intro parseJ printJ oldPath newPath notes now fs p hp
    cases h1 : (fs oldPath).bind parseJ with
    | none => simp [differFS, h1]
    | some o =>
        cases h2 : (fs newPath).bind parseJ with
        | none => simp [differFS, h1, h2]
        | some n =>
            cases hm : differMain o n notes now with
            | none => simp [differFS, h1, h2, hm]
            | some res => simp [differFS, h1, h2, hm, if_neg hp]
  · intro notes now result hres
    rw [differMain] at hres
    split at hres
    · exact absurd hres (by simp)
    · have hr : result = appendChangelog newData
          (mkLogEntry now (diff oldData newData) notes) := by
        injection hres with h
        exact h.symm
      subst hr
      constructor
      · exact filter_setKeyJ (jItems newData) "changelog" _
      · have hl := lookupJ_setKeyJ (jItems newData) "changelog"
          (.arr (asArr (jGetD newData "changelog" (.arr []))
            ++ [mkLogEntry now (diff oldData newData) notes]))
        show asArr ((lookupJ "changelog" (setKeyJ (jItems newData) "changelog"
            (.arr (asArr (jGetD newData "changelog" (.arr []))
              ++ [mkLogEntry now (diff oldData newData) notes])))).getD (.arr []))
          = asArr (jGetD newData "changelog" (.arr []))
            ++ [mkLogEntry now (diff oldData newData) notes]
        rw [hl]
        rfl

/-- Witness for differ_frame_spec at a concrete pair of documents. -/
theorem differ_frame_spec_witness :
    (DocWF docW2 = true) ∧
    ((jItems (appendChangelog docW2 (mkLogEntry "T" (diff docW docW2) none))).filter
        (fun q => q.1 ≠ "changelog")
      = (jItems docW2).filter (fun q => q.1 ≠ "changelog")
     ∧ asArr (jGetD (appendChangelog docW2 (mkLogEntry "T" (diff docW docW2) none))
          "changelog" (.arr []))
        = asArr (jGetD docW2 "changelog" (.arr []))
          ++ [mkLogEntry "T" (diff docW docW2) none]) :=
  ⟨by decide, (differ_frame_spec docW docW2 (by decide)).2 none "T" _ rfl⟩
